import Mathlib

/-!
Verification development for the LeadMap scraping/enrichment pipeline
(`scripts/redfin-scraper/Enrichment.py`, `supabase_client.py`, `FSBO.py`).

The Python sources are shallowly embedded: strings are `String`/`List Char`,
dictionaries are association lists, the browser/DOM is abstracted by the
values each probe of the document produces, and the wall clock plus the two
external parsers used by the persistence layer (pandas datetime parsing and
Python float parsing) are explicit parameters.  Regular expressions that the
source applies to fixed concrete patterns are translated pattern-by-pattern
into executable matching functions with Python `re` semantics (lazy/greedy
backtracking resolved by hand for each fixed pattern, `$` matching at the end
or before a final newline, character classes read over ASCII).
-/

namespace LeadMap

/-! ## Python string primitives (ASCII model) -/

/-- Python whitespace for `str.strip` / `\s` (ASCII fragment). -/
def pyIsSpace (c : Char) : Bool :=
  c == ' ' || c == '\t' || c == '\n' || c == '\r' || c == '\x0b' || c == '\x0c'

/-- `\w` word characters (ASCII fragment): letters, digits, underscore. -/
def isWordChar (c : Char) : Bool :=
  c.isAlpha || c.isDigit || c == '_'

/-- Python `str.strip()` on a character list. -/
def pyStripL (l : List Char) : List Char :=
  ((l.dropWhile pyIsSpace).reverse.dropWhile pyIsSpace).reverse

/-- Python `str.strip()`. -/
def pyStripS (s : String) : String :=
  String.mk (pyStripL s.toList)

/-- Python `str.lower()` (ASCII model). -/
def pyLowerS (s : String) : String :=
  String.mk (s.toList.map Char.toLower)

/-- Python `str.upper()` (ASCII model). -/
def pyUpperS (s : String) : String :=
  String.mk (s.toList.map Char.toUpper)

/-- Substring test (`pat in l` for Python strings), on character lists. -/
def listContainsSub (l pat : List Char) : Bool :=
  match l with
  | [] => pat.isEmpty
  | _ :: t => pat.isPrefixOf l || listContainsSub t pat

/-- Python `sub in s` membership test. -/
def pyContains (s sub : String) : Bool :=
  listContainsSub s.toList sub.toList

/-- Python `any(kw in s for kw in kws)`. -/
def pyContainsAny (s : String) (kws : List String) : Bool :=
  kws.any fun kw => pyContains s kw

/-- A truthiness test for an optional string (Python `not x` on `None`/`""`). -/
def falsyOpt : Option String → Bool
  | none => true
  | some v => v == ""

/-- Python f-string rendering of an optional string (`None` prints as `"None"`). -/
def pyFmtOpt : Option String → String
  | none => "None"
  | some v => v

/-- Regex `$` (no `re.MULTILINE`): matches at the end of the subject or just
before one final newline. -/
def atEnd (l : List Char) : Bool :=
  l.isEmpty || l == ['\n']

/-! ## `FSBO.normalize_zip` -/

/-- The first maximal run of digits in the input, i.e. the text matched by
`re.search(r'(\d+)', s)`. -/
def firstDigitRun : List Char → List Char
  | [] => []
  | c :: cs => if c.isDigit then c :: cs.takeWhile Char.isDigit else firstDigitRun cs

/-- `FSBO.normalize_zip`: normalize ZIP-like input to a 5-digit string.
Empty input gives `""`; otherwise the first digit run is extracted, truncated
to its first 5 digits when it has 5 or more, and left-padded with zeros via
`zfill(5)` when shorter. Digit-free input gives `""`. -/
def normalize_zip (s : String) : String :=
  if s = "" then ""
  else
    let digits := firstDigitRun s.toList
    if digits = [] then ""
    else if 5 ≤ digits.length then String.mk (digits.take 5)
    else String.mk (List.replicate (5 - digits.length) '0' ++ digits)

/-- ZIP normalization as the specification words it: extract the first run of
digits; if it has at least 5 digits keep the first 5, if fewer left-pad with
zeros to 5; empty or digit-free input maps to the empty string. -/
def zipNormOfSpec (s : String) : String :=
  let run := (s.toList.dropWhile (fun c => !c.isDigit)).takeWhile Char.isDigit
  if run = [] then ""
  else if 5 ≤ run.length then String.mk (run.take 5)
  else String.mk (List.replicate (5 - run.length) '0' ++ run)

/-! ## `Enrichment.build_truepeoplesearch_url` -/

/-- Hex digit (uppercase), as used by `urllib.parse.quote`. -/
def hexDigitChar (n : Nat) : Char :=
  if n < 10 then Char.ofNat (48 + n) else Char.ofNat (55 + n)

/-- Bytes `urllib.parse.quote_plus` never encodes: ASCII letters, digits,
and `_ . - ~`. -/
def isSafeByte (b : UInt8) : Bool :=
  (65 ≤ b && b ≤ 90) || (97 ≤ b && b ≤ 122) || (48 ≤ b && b ≤ 57) ||
    b == 95 || b == 46 || b == 45 || b == 126

/-- `urllib.parse.quote_plus` on one UTF-8 byte. -/
def quotePlusByte (b : UInt8) : List Char :=
  if b == 32 then ['+']
  else if isSafeByte b then [Char.ofNat b.toNat]
  else ['%', hexDigitChar (b.toNat / 16), hexDigitChar (b.toNat % 16)]

/-- `urllib.parse.quote_plus`: UTF-8 encode, quote every unsafe byte,
turn spaces into `+`. -/
def quotePlus (s : String) : String :=
  String.mk ((s.toList.map fun c => ((String.utf8EncodeChar c).map quotePlusByte).flatten).flatten)

/-- `urllib.parse.urlencode` of the two-key dict built by the URL builder
(dict insertion order: `streetaddress` first). -/
def urlencodeParams (street csz : String) : String :=
  "streetaddress=" ++ quotePlus street ++ "&citystatezip=" ++ quotePlus csz

/-- `Enrichment.build_truepeoplesearch_url`. Raising `ValueError` is embedded
as `Except.error`. `zip_code` is not required; a `None` argument that reaches
the f-string renders as `"None"` per Python semantics. -/
def build_truepeoplesearch_url (address city state zip_code : Option String) :
    Except String String :=
  if falsyOpt address || falsyOpt city || falsyOpt state then
    Except.error "Address, city, and state are required"
  else
    let street_address := pyStripS (pyFmtOpt address)
    let city_state_zip :=
      pyStripS (pyFmtOpt city ++ ", " ++ pyFmtOpt state ++ " " ++ pyFmtOpt zip_code)
    Except.ok ("https://www.truepeoplesearch.com/resultaddress?" ++
      urlencodeParams street_address city_state_zip)

/-! ## `Enrichment.parse_full_address`

Each concrete regular expression of the source is translated into an
executable matcher with Python `re` semantics.  For the fixed patterns at
hand the backtracking search resolves deterministically: the lazy group
`(.+?),` tries successive commas as its right boundary, `[^,]+` reaches
exactly the next comma, `\s*`/`\s+` runs are maximal because every
continuation starts with a non-whitespace class, and `$` matches at the end
or before one final newline. -/

structure ParsedAddress where
  street : Option String
  city : Option String
  state : Option String
  zip_code : Option String
  deriving Repr, DecidableEq

def ParsedAddress.allNone : ParsedAddress := ⟨none, none, none, none⟩

/-- Split at the first comma: `(before, after)`, comma dropped. -/
def splitFirstComma : List Char → Option (List Char × List Char)
  | [] => none
  | c :: rest =>
    if c = ',' then some ([], rest)
    else
      match splitFirstComma rest with
      | some (a, b) => some (c :: a, b)
      | none => none

/-- `(\d{5}(?:-\d{4})?)$`: a ZIP group anchored at the subject end, trying
the greedy `-\d{4}` extension first. -/
def zipAtEnd : List Char → Option (List Char)
  | d1 :: d2 :: d3 :: d4 :: d5 :: rest =>
    if d1.isDigit && d2.isDigit && d3.isDigit && d4.isDigit && d5.isDigit then
      match rest with
      | '-' :: e1 :: e2 :: e3 :: e4 :: tail =>
        if e1.isDigit && e2.isDigit && e3.isDigit && e4.isDigit && atEnd tail then
          some [d1, d2, d3, d4, d5, '-', e1, e2, e3, e4]
        else if atEnd rest then some [d1, d2, d3, d4, d5] else none
      | _ => if atEnd rest then some [d1, d2, d3, d4, d5] else none
    else none
  | _ => none

/-- Tail of pattern 1 after its second comma:
`\s*([A-Z]{2})(?:\s+(\d{5}(?:-\d{4})?))?$` under `re.IGNORECASE`.
Returns the upper-cased state group and the optional ZIP group, as the
source stores them. -/
def p1Tail (l : List Char) : Option (String × Option String) :=
  match l.dropWhile pyIsSpace with
  | a :: b :: rest =>
    if a.isAlpha && b.isAlpha then
      if atEnd rest then some (String.mk [a.toUpper, b.toUpper], none)
      else if (rest.takeWhile pyIsSpace).isEmpty then none
      else
        match zipAtEnd (rest.dropWhile pyIsSpace) with
        | some z => some (String.mk [a.toUpper, b.toUpper], some (String.mk z))
        | none => none
    else none
  | _ => none

/-- After the first comma of pattern 1: `\s*([^,]+),` then `p1Tail`.  The
stripped city group equals the stripped segment before the next comma, and
`[^,]+` requires that segment to be non-empty. -/
def p1AfterComma (l : List Char) : Option (String × String × Option String) :=
  match splitFirstComma l with
  | some (seg, tail) =>
    if seg.isEmpty then none
    else
      match p1Tail tail with
      | some (st, zp) => some (String.mk (pyStripL seg), st, zp)
      | none => none
  | none => none

/-- Pattern 1 `^(.+?),\s*([^,]+),\s*([A-Z]{2})(?:\s+(\d{5}(?:-\d{4})?))?$`
(`re.IGNORECASE`): the lazy first group tries each comma in turn as its
right boundary; `.` excludes newlines; stored groups are stripped. -/
def p1Find (before l : List Char) : Option ParsedAddress :=
  match l with
  | [] => none
  | c :: rest =>
    if c = ',' then
      if !before.isEmpty && before.all (· != '\n') then
        match p1AfterComma rest with
        | some (city, st, zp) =>
          some ⟨some (String.mk (pyStripL before)), some city, some st, zp⟩
        | none => p1Find (before ++ [c]) rest
      else p1Find (before ++ [c]) rest
    else p1Find (before ++ [c]) rest

/-- `([A-Z]{2})\s+(\d{5}(?:-\d{4})?)$` under `re.IGNORECASE` (the state/zip
tail of the pattern 2 gate). -/
def m2State : List Char → Bool
  | a :: b :: rest =>
    a.isAlpha && b.isAlpha && !(rest.takeWhile pyIsSpace).isEmpty &&
      (zipAtEnd (rest.dropWhile pyIsSpace)).isSome
  | _ => false

mutual

/-- One word `[A-Z][a-z]+` (≥ 2 letters under `re.IGNORECASE`) of the
pattern 2 city-words group, followed by `m2Cont`; the word length is an
existence choice because only the boolean match outcome is consumed. -/
def m2Word : Nat → List Char → Bool
  | 0, _ => false
  | _ + 1, [] => false
  | fuel + 1, a :: rest =>
    a.isAlpha &&
      (List.range (rest.takeWhile Char.isAlpha).length).any fun j =>
        m2Cont fuel (rest.drop (j + 1))

/-- `(?:\s+[A-Z][a-z]+)*\s+([A-Z]{2})\s+(\d{5}(?:-\d{4})?)$` after a word:
mandatory whitespace, then either the state tail or a further word. -/
def m2Cont : Nat → List Char → Bool
  | 0, _ => false
  | fuel + 1, l =>
    !(l.takeWhile pyIsSpace).isEmpty &&
      (m2State (l.dropWhile pyIsSpace) || m2Word fuel (l.dropWhile pyIsSpace))

end

/-- Pattern 2 gate
`^(.+?)\s+([A-Z][a-z]+(?:\s+[A-Z][a-z]+)*)\s+([A-Z]{2})\s+(\d{5}(?:-\d{4})?)$`
(`re.IGNORECASE`).  The source only tests whether this matches and then
re-parses by tokens, so the gate is an existence check over the lazy group-1
boundary. -/
def match2 (l : List Char) : Bool :=
  (List.range l.length).any fun i =>
    (l.take (i + 1)).all (· != '\n') &&
      (let rest := l.drop (i + 1)
       !(rest.takeWhile pyIsSpace).isEmpty &&
         m2Word (rest.length + 1) (rest.dropWhile pyIsSpace))

/-- Python `str.split()` with no argument: split on whitespace runs,
producing no empty tokens.  Fueled; the fuel bounds the token count. -/
def pySplitGo : Nat → List Char → List (List Char)
  | 0, _ => []
  | fuel + 1, l =>
    let l1 := l.dropWhile pyIsSpace
    if l1.isEmpty then []
    else
      l1.takeWhile (fun c => !pyIsSpace c) ::
        pySplitGo fuel (l1.dropWhile (fun c => !pyIsSpace c))

def pySplit (l : List Char) : List (List Char) :=
  pySplitGo (l.length + 1) l

/-- Python `' '.join`. -/
def joinSpace : List (List Char) → List Char
  | [] => []
  | [t] => t
  | t :: ts => t ++ ' ' :: joinSpace ts

/-- The token-based parse the source runs when the pattern 2 regex matched:
split on whitespace, scan indices `len-1 .. 1` for a 2-letter alphabetic
token, and require that index to exceed 1; street is the space-join of the
tokens before the city token.  `none` means the source falls through to
pattern 3. -/
def p2Tokens (l : List Char) : Option ParsedAddress :=
  let parts := pySplit l
  if 4 ≤ parts.length then
    match ((List.range parts.length).drop 1).reverse.find?
        (fun i => (parts.getD i []).length == 2 && (parts.getD i []).all Char.isAlpha) with
    | some i =>
      if 1 < i then
        some ⟨some (String.mk (pyStripL (joinSpace (parts.take (i - 1))))),
              some (String.mk (pyStripL (parts.getD (i - 1) []))),
              some (pyUpperS (String.mk (pyStripL (parts.getD i [])))),
              if i + 1 < parts.length then
                some (String.mk (pyStripL (parts.getD (i + 1) [])))
              else none⟩
      else none
    | none => none
  else none

/-- The fixed 50-state + DC table of `convert_state_name_to_abbr`. -/
def stateMap : List (String × String) :=
  [("alabama", "AL"), ("alaska", "AK"), ("arizona", "AZ"), ("arkansas", "AR"),
   ("california", "CA"), ("colorado", "CO"), ("connecticut", "CT"),
   ("delaware", "DE"), ("florida", "FL"), ("georgia", "GA"), ("hawaii", "HI"),
   ("idaho", "ID"), ("illinois", "IL"), ("indiana", "IN"), ("iowa", "IA"),
   ("kansas", "KS"), ("kentucky", "KY"), ("louisiana", "LA"), ("maine", "ME"),
   ("maryland", "MD"), ("massachusetts", "MA"), ("michigan", "MI"),
   ("minnesota", "MN"), ("mississippi", "MS"), ("missouri", "MO"),
   ("montana", "MT"), ("nebraska", "NE"), ("nevada", "NV"),
   ("new hampshire", "NH"), ("new jersey", "NJ"), ("new mexico", "NM"),
   ("new york", "NY"), ("north carolina", "NC"), ("north dakota", "ND"),
   ("ohio", "OH"), ("oklahoma", "OK"), ("oregon", "OR"),
   ("pennsylvania", "PA"), ("rhode island", "RI"), ("south carolina", "SC"),
   ("south dakota", "SD"), ("tennessee", "TN"), ("texas", "TX"),
   ("utah", "UT"), ("vermont", "VT"), ("virginia", "VA"),
   ("washington", "WA"), ("west virginia", "WV"), ("wisconsin", "WI"),
   ("wyoming", "WY"), ("district of columbia", "DC")]

/-- `Enrichment.convert_state_name_to_abbr`: dictionary lookup on the
lower-cased name. -/
def convert_state_name_to_abbr (s : String) : Option String :=
  (stateMap.find? (fun e => e.1 == pyLowerS s)).map (·.2)

/-- Word chain of pattern 3's state-name group plus the trailing ZIP:
`[A-Z][a-z]+(?:\s+[A-Z][a-z]+)*\s+(\d{5}(?:-\d{4})?)$` with the group-3
capture keeping its original internal spacing.  The greedy star prefers a
further word over stopping. -/
def p3Go : Nat → List Char → Option (List Char × List Char)
  | 0, _ => none
  | fuel + 1, l =>
    let tok := l.takeWhile Char.isAlpha
    if tok.length < 2 then none
    else
      let r1 := l.drop tok.length
      let ws := r1.takeWhile pyIsSpace
      if ws.isEmpty then none
      else
        let r2 := r1.dropWhile pyIsSpace
        match p3Go fuel r2 with
        | some (cap, z) => some (tok ++ ws ++ cap, z)
        | none =>
          match zipAtEnd r2 with
          | some z => some (tok, z)
          | none => none

/-- Tail of pattern 3 after its second comma:
`\s*([A-Z][a-z]+(?:\s+[A-Z][a-z]+)*)\s+(\d{5}(?:-\d{4})?)$`. -/
def p3Tail (l : List Char) : Option (List Char × List Char) :=
  let body := l.dropWhile pyIsSpace
  p3Go (body.length + 1) body

/-- After the first comma of pattern 3: segment to the next comma as the
city group, then `p3Tail`; returns (city, state-name, zip), stripped. -/
def p3AfterComma (l : List Char) : Option (String × String × String) :=
  match splitFirstComma l with
  | some (seg, tail) =>
    if seg.isEmpty then none
    else
      match p3Tail tail with
      | some (cap, z) =>
        some (String.mk (pyStripL seg), String.mk (pyStripL cap),
          String.mk (pyStripL z))
      | none => none
  | none => none

/-- Pattern 3 `^(.+?),\s*([^,]+),\s*([A-Z][a-z]+(?:\s+[A-Z][a-z]+)*)\s+(zip)$`
(`re.IGNORECASE`) comma loop, with the state name resolved through the state
table (falling back to `.upper()`), as in the source. -/
def p3Find (before l : List Char) : Option ParsedAddress :=
  match l with
  | [] => none
  | c :: rest =>
    if c = ',' then
      if !before.isEmpty && before.all (· != '\n') then
        match p3AfterComma rest with
        | some (city, stateName, z) =>
          some ⟨some (String.mk (pyStripL before)), some city,
                some ((convert_state_name_to_abbr stateName).getD (pyUpperS stateName)),
                some z⟩
        | none => p3Find (before ++ [c]) rest
      else p3Find (before ++ [c]) rest
    else p3Find (before ++ [c]) rest

/-- `\d{5}(?:-\d{4})?` followed by `\s*$`: everything after the digits must
be whitespace (the subject is pre-stripped, but the general condition is
kept).  Greedy `-\d{4}` first. -/
def zipThenSpaces : List Char → Option (List Char)
  | d1 :: d2 :: d3 :: d4 :: d5 :: rest =>
    if d1.isDigit && d2.isDigit && d3.isDigit && d4.isDigit && d5.isDigit then
      match rest with
      | '-' :: e1 :: e2 :: e3 :: e4 :: tail =>
        if e1.isDigit && e2.isDigit && e3.isDigit && e4.isDigit && tail.all pyIsSpace then
          some [d1, d2, d3, d4, d5, '-', e1, e2, e3, e4]
        else if rest.all pyIsSpace then some [d1, d2, d3, d4, d5] else none
      | _ => if rest.all pyIsSpace then some [d1, d2, d3, d4, d5] else none
    else none
  | _ => none

/-- `re.search(r'\b(\d{5}(?:-\d{4})?)\s*$', addr)`: leftmost word-boundary
position whose ZIP run reaches the end.  Returns the group and the prefix
before the match span (what `re.sub` then leaves behind). -/
def fbZip (acc : List Char) (prevWord : Bool) (l : List Char) :
    Option (List Char × List Char) :=
  match l with
  | [] => none
  | c :: rest =>
    if !prevWord then
      match zipThenSpaces (c :: rest) with
      | some z => some (z, acc.reverse)
      | none => fbZip (c :: acc) (isWordChar c) rest
    else fbZip (c :: acc) (isWordChar c) rest

/-- One attempt of `\b([A-Z]{2})\s+(?=\d{5})` (no `re.IGNORECASE`) at the
current position: two strictly upper-case letters, mandatory whitespace, and
a 5-digit lookahead.  Returns the letter pair and the remainder starting at
the digits (the lookahead is not consumed; the match span is letters plus
whitespace). -/
def fbStateAt : List Char → Option (List Char × List Char)
  | a :: b :: rest =>
    if ('A' ≤ a && a ≤ 'Z') && ('A' ≤ b && b ≤ 'Z') then
      if (rest.takeWhile pyIsSpace).isEmpty then none
      else
        match rest.dropWhile pyIsSpace with
        | f1 :: f2 :: f3 :: f4 :: f5 :: r3 =>
          if f1.isDigit && f2.isDigit && f3.isDigit && f4.isDigit && f5.isDigit then
            some ([a, b], f1 :: f2 :: f3 :: f4 :: f5 :: r3)
          else none
        | _ => none
    else none
  | _ => none

/-- `re.search` plus `re.sub` for the state pattern in one scan: the first
match's group, and the input with every match span removed. -/
def fbStateGo : Nat → Option (List Char) → List Char → Bool → List Char →
    Option (List Char) × List Char
  | 0, found, acc, _, l => (found, acc.reverse ++ l)
  | fuel + 1, found, acc, prevWord, l =>
    match l with
    | [] => (found, acc.reverse)
    | c :: rest =>
      if !prevWord then
        match fbStateAt (c :: rest) with
        | some (st, remainder) =>
          fbStateGo fuel (found.orElse fun _ => some st) acc false remainder
        | none => fbStateGo fuel found (c :: acc) (isWordChar c) rest
      else fbStateGo fuel found (c :: acc) (isWordChar c) rest

/-- Python `str.split(',')` keeping empty parts. -/
def splitOnCommas : List Char → List (List Char)
  | [] => [[]]
  | c :: rest =>
    let r := splitOnCommas rest
    if c = ',' then [] :: r
    else
      match r with
      | h :: t => (c :: h) :: t
      | [] => [[c]]

/-- The trailing-ZIP step of the residual extraction: on a match, keep the
stripped group and strip the prefix the substitution leaves; otherwise the
address is untouched. -/
def fallbackZipStep (addr : List Char) : Option String × List Char :=
  match fbZip [] false addr with
  | some (z, pre) => (some (String.mk (pyStripL z)), pyStripL pre)
  | none => (none, addr)

/-- The state-code step of the residual extraction: on a match, upper-case
the group and strip the address with every match span removed. -/
def fallbackStateStep (a1 : List Char) : Option String × List Char :=
  match fbStateGo (a1.length + 1) none [] false a1 with
  | (some st, remainder) => (some (pyUpperS (String.mk st)), pyStripL remainder)
  | (none, _) => (none, a1)

/-- Residual extraction of `parse_full_address` when no pattern matched:
strip a trailing ZIP, then a 2-letter state code preceding 5 digits, then
split the remainder on its commas into street/city (street alone when no
comma is left — possibly the empty string). -/
def parseFallback (addr : List Char) : ParsedAddress :=
  let zStep := fallbackZipStep addr
  let sStep := fallbackStateStep zStep.2
  let addr2 := sStep.2
  if addr2.contains ',' then
    let parts := (splitOnCommas addr2).map pyStripL
    if 2 ≤ parts.length then
      { street := some (String.mk (pyStripL (parts.headD []))),
        city := some (String.mk (pyStripL (parts.getLastD []))),
        state := sStep.1, zip_code := zStep.1 }
    else
      { street := some (String.mk addr2), city := none,
        state := sStep.1, zip_code := zStep.1 }
  else
    { street := some (String.mk addr2), city := none,
      state := sStep.1, zip_code := zStep.1 }

/-- `Enrichment.parse_full_address`.  A Python `None` argument is the `none`
case; the guard `not address_string or not address_string.strip()` is the
empty/whitespace test; patterns 1, 2 (regex gate plus token re-parse), 3 and
the residual fallback are tried in source order. -/
def parse_full_address : Option String → ParsedAddress
  | none => ParsedAddress.allNone
  | some s =>
    if s = "" || (pyStripL s.toList).isEmpty then ParsedAddress.allNone
    else
      let addr := pyStripL s.toList
      match p1Find [] addr with
      | some r => r
      | none =>
        let viaP3 :=
          match p3Find [] addr with
          | some r => r
          | none => parseFallback addr
        if match2 addr then
          match p2Tokens addr with
          | some r => r
          | none => viaP3
        else viaP3

/-! ## Association-list dictionaries

Python dicts are embedded as association lists in insertion order with
unique keys: lookup takes the first binding, assignment replaces in place or
appends. -/

/-- Dict lookup. -/
def agetV {β : Type} (m : List (String × β)) (k : String) : Option β :=
  (m.find? (fun e => e.1 == k)).map (·.2)

/-- Dict assignment: replace the first binding in place, or append. -/
def asetV {β : Type} (m : List (String × β)) (k : String) (v : β) :
    List (String × β) :=
  match m with
  | [] => [(k, v)]
  | e :: t => if e.1 == k then (k, v) :: t else e :: asetV t k v

/-- A work item / lead record: a string-keyed, string-valued dict. -/
abbrev StrMap := List (String × String)

/-- Python `dict.update`. -/
def aupdate (m upd : StrMap) : StrMap :=
  upd.foldl (fun acc e => asetV acc e.1 e.2) m

/-! ## `TruePeopleSearchParser.extract_property_data`

The DOM is abstracted away: a document is known to the extractor through the
value each probe produces.  For one target field these probes are the CSS
selector text (method 1), the XPath text (method 2), the successive `<b>`
texts discovered by the label-text loop (method 3), and, per alternative
selector, the successive candidate texts passing the label-proximity check
(method 4).  All control flow and validation logic of the source is
embedded. -/

structure StrategyOutputs where
  /-- `safe_text` of the primary CSS selector hit, when an element matched
  (`get_text(strip=True)` may still be the empty string). -/
  css : Option String
  /-- `extract_by_xpath` result: stripped text, or `none`. -/
  xpath : Option String
  /-- Method 3: `safe_text` of each `<b>` found under a label-text hit, in
  loop order. -/
  labels : List String
  /-- Method 4: per alternative selector, the texts assigned by the inner
  element loop (those passing the parent-label containment check). -/
  alts : List (List String)

/-- Python truthiness of an optional string. -/
def truthyOpt : Option String → Bool
  | none => false
  | some v => v != ""

/-- The per-strategy validity test
`value and value.lower() not in ['n/a', 'na', 'not available', '']`
(note: `'none'` is absent from this list; it only appears in the final
cleanup list). -/
def validStrategyValue (t : String) : Bool :=
  t != "" && !(["n/a", "na", "not available", ""].contains (pyLowerS t))

/-- The shared shape of method 3's label loop and method 4's inner element
loop: each candidate is assigned to `value` unconditionally, and the loop
breaks on the first valid one; an all-invalid list leaves the last
assignment in place. -/
def assignScan (cur : Option String) : List String → Option String
  | [] => cur
  | t :: ts => if validStrategyValue t then some t else assignScan (some t) ts

/-- Method 4's outer loop over alternative selectors: after each inner loop,
any truthy `value` (valid or sentinel) breaks out. -/
def altScan (cur : Option String) : List (List String) → Option String
  | [] => cur
  | g :: gs =>
    let v := assignScan cur g
    if truthyOpt v then v else altScan v gs

/-- The price-typed fields of `extract_property_data`. -/
def priceCleanFields : List String :=
  ["estimated_value", "estimated_equity", "last_sale_amount"]

/-- `re.search(r'\b(19|20)\d{2}\b', v)`: leftmost 4-digit year token with
word boundaries on both sides; returns `group(0)`. -/
def findYearToken : Bool → List Char → Option (List Char)
  | _, [] => none
  | prevWord, c :: rest =>
    if !prevWord then
      match rest with
      | b :: d3 :: d4 :: tail =>
        if ((c == '1' && b == '9') || (c == '2' && b == '0')) &&
            d3.isDigit && d4.isDigit &&
            (match tail with | [] => true | h :: _ => !isWordChar h) then
          some [c, b, d3, d4]
        else findYearToken (isWordChar c) rest
      | _ => findYearToken (isWordChar c) rest
    else findYearToken (isWordChar c) rest

/-- The final cleanup of `extract_property_data`: strip, drop the sentinel
set (now including `'none'`), then apply the field-specific cleaning rule —
price fields keep digits and dots and must retain a digit, the year field
requires a `\b(19|20)\d{2}\b` token, `last_sale_date` and every other field
keep the stripped text.  `none` means the field is not stored.  (Integer
truncation of prices happens later, in the persistence layer.) -/
def cleanupValue (field : String) (v : String) : Option String :=
  let v1 := pyStripS v
  if ["n/a", "na", "not available", "", "none"].contains (pyLowerS v1) then none
  else if priceCleanFields.contains field then
    let cleaned := v1.toList.filter (fun c => c.isDigit || c == '.')
    if !cleaned.isEmpty && cleaned.any Char.isDigit then some (String.mk cleaned)
    else none
  else if field == "year_built_enriched" then
    (findYearToken false v1.toList).map String.mk
  else some v1

/-- The per-field loop body of `extract_property_data`: method 1 (CSS),
method 2 (XPath) when `value` is falsy, method 3 (label search) when still
falsy, method 4 (alternative selectors) when still falsy, then the final
cleanup on a truthy value.  A later method runs only when the current
`value` is `None` or `""`; the validity tests inside methods 1 and 2 guard
nothing but a log line. -/
def fieldValue (field : String) (o : StrategyOutputs) : Option String :=
  let v1 := o.css
  let v2 := if truthyOpt v1 then v1 else o.xpath
  let v3 := if truthyOpt v2 then v2 else assignScan v2 o.labels
  let v4 := if truthyOpt v3 then v3 else altScan v3 o.alts
  if truthyOpt v4 then cleanupValue field (v4.getD "") else none

/-- The nine extraction targets `(field_name, label_text)` in declaration
order (selector strings are part of the abstracted DOM probes). -/
def property_fields : List (String × String) :=
  [("estimated_value", "Estimated Value"),
   ("estimated_equity", "Estimated Equity"),
   ("last_sale_date", "Last Sale Date"),
   ("last_sale_amount", "Last Sale Amount"),
   ("year_built_enriched", "Year Built"),
   ("ownership_type", "Ownership Type"),
   ("occupancy_type", "Occupancy Type"),
   ("property_class", "Property Class"),
   ("land_use", "Land Use")]

/-- Abstract view of a fetched page.  `pageText` is `soup.get_text()`;
`residentData` is the output of `extract_resident_data` (heuristic DOM
mining whose internals live entirely in BeautifulSoup selector calls and is
therefore modelled abstractly as a document attribute); `hasPropertyCard`
is whether `select_one('div.card.card-body.shadow-form, ...')` hits;
`fieldOutputs` gives each field's strategy probes. -/
structure Document where
  rawEmpty : Bool
  pageText : String
  residentData : StrMap
  hasPropertyCard : Bool
  fieldOutputs : String → StrategyOutputs

/-- `extract_property_data`: the property-card precheck, then the per-field
strategy chains, collecting stored values in field order. -/
def extract_property_data (doc : Document) : StrMap :=
  if !doc.hasPropertyCard &&
      !pyContains (pyLowerS doc.pageText) "estimated value" then []
  else
    property_fields.foldl (fun acc fl =>
      match fieldValue fl.1 (doc.fieldOutputs fl.1) with
      | some v => acc ++ [(fl.1, v)]
      | none => acc) []

/-- The blocking indicators scanned by `extract_all`. -/
def blockKeywords : List String := ["captcha", "robot", "access denied"]

/-- `TruePeopleSearchParser.extract_all`: empty content, a blocking
indicator, or a no-results marker short-circuits to the empty field set;
otherwise resident and property data are merged (`{**resident, **property}`,
property winning on clashes). -/
def extract_all (doc : Document) : StrMap :=
  if doc.rawEmpty then []
  else
    let page_text := pyLowerS doc.pageText
    if blockKeywords.any (fun kw => pyContains page_text kw) then []
    else if pyContains page_text "no results found" ||
        pyContains page_text "we found 0" then []
    else aupdate doc.residentData (extract_property_data doc)

/-! ## The fetch retry loop of `enrich_lead_task` -/

/-- Outcome of one direct `page.goto` call. -/
inductive GotoResult
  | resp (status : Nat) (finalUrl : String)
  | noResponse
  | exn
  deriving Repr, DecidableEq

/-- The world a fetch interacts with: whether the AWS-proxy route (attempt 0)
succeeds, and the outcome of the direct navigation on each attempt. -/
structure FetchWorld where
  proxyOk : Bool
  goto : Nat → GotoResult

def USE_AWS_ROTATION : Bool := true

def max_retries : Nat := 2

/-- The retry loop of `enrich_lead_task`: on attempt 0 the AWS proxy is
tried first when enabled, a success breaking out immediately and a failure
falling back to a direct `page.goto` within the same attempt.  A response
with status ≥ 400, a missing response, a challenge redirect away from the
target domain, or a navigation exception retries while attempts remain
(`attempt < max_retries - 1`, i.e. `remaining ≠ 0` here); on the final
attempt a status ≥ 400 or an off-domain response without challenge keywords
still sets `fetch_success`.  Returns the `fetch_success` flag and how many
direct `page.goto` calls were made. -/
def fetchGo (w : FetchWorld) : Nat → Nat → Nat → Bool × Nat
  | 0, _, gotos => (false, gotos)
  | remaining + 1, attempt, gotos =>
    if USE_AWS_ROTATION && attempt == 0 && w.proxyOk then (true, gotos)
    else
      match w.goto attempt with
      | .resp status finalUrl =>
        if 400 ≤ status && remaining != 0 then
          fetchGo w remaining (attempt + 1) (gotos + 1)
        else
          let fu := pyLowerS finalUrl
          if !pyContains fu "truepeoplesearch.com" &&
              (pyContains fu "cloudflare" || pyContains fu "challenge") &&
              remaining != 0 then
            fetchGo w remaining (attempt + 1) (gotos + 1)
          else (true, gotos + 1)
      | .noResponse =>
        if remaining != 0 then fetchGo w remaining (attempt + 1) (gotos + 1)
        else (false, gotos + 1)
      | .exn =>
        if remaining != 0 then fetchGo w remaining (attempt + 1) (gotos + 1)
        else (false, gotos + 1)

def fetchLoop (w : FetchWorld) : Bool × Nat :=
  fetchGo w max_retries 0 0

/-! ## `supabase_client.save_lead_to_supabase`

The wall clock is an explicit input (`nowDate`, `nowIso`); the two external
parsers — `pandas.to_datetime(...).isoformat()` and Python `float(...)` on
the float columns — are explicit function parameters.  The persistent store
itself is out of scope for the repository (spec section 6), so the upsert
endpoint is modelled from the spec. -/

/-- A typed column value of the `listings` payload. -/
inductive DBValue
  | s (v : String)
  | i (v : Int)
  | b (v : Bool)
  | strList (v : List String)
  | obj (v : List (String × String))
  deriving Repr, DecidableEq

/-- `supabase_client.FIELD_MAPPINGS`, transcribed entry for entry. -/
def FIELD_MAPPINGS : List (String × List String) :=
  [("listing_id", ["listing_id", "property_id"]),
   ("property_url", ["property_url"]),
   ("permalink", ["permalink"]),
   ("street", ["address", "street"]),
   ("unit", ["unit"]),
   ("city", ["city"]),
   ("state", ["state"]),
   ("zip_code", ["zip_code"]),
   ("beds", ["beds"]),
   ("full_baths", ["full_baths"]),
   ("half_baths", ["half_baths"]),
   ("sqft", ["sqft"]),
   ("year_built", ["year_built"]),
   ("list_price", ["list_price"]),
   ("list_price_min", ["list_price_min"]),
   ("list_price_max", ["list_price_max"]),
   ("status", ["status", "mls_status"]),
   ("mls", ["mls", "mls_id"]),
   ("agent_name", ["agent_name"]),
   ("agent_email", ["agent_email", "listing_agent_email"]),
   ("agent_phone", ["agent_phone", "agent_phone_1", "listing_agent_phone"]),
   ("photos", ["photos"]),
   ("price_per_sqft", ["price_per_sqft"]),
   ("listing_source_name", ["listing_source_name", "listing_source"]),
   ("listing_source_id", ["listing_source_id"]),
   ("monthly_payment_estimate", ["monthly_payment_estimate"]),
   ("ai_investment_score", ["ai_investment_score"]),
   ("time_listed", ["time_listed"]),
   ("agent_phone_2", ["agent_phone_2"]),
   ("listing_agent_phone_2", ["listing_agent_phone_2"]),
   ("listing_agent_phone_4", ["listing_agent_phone_4"]),
   ("estimated_value", ["estimated_value"]),
   ("Estimated_Equity", ["estimated_equity"]),
   ("Last_Sale_Date", ["last_sale_date"]),
   ("Last_Sale_Amount", ["last_sale_amount"]),
   ("Year_Built", ["year_built_enriched"]),
   ("Ownership_Type", ["ownership_type"]),
   ("Occupancy_Type", ["occupancy_type"]),
   ("Property_Class", ["property_class"]),
   ("Land_Use", ["land_use"]),
   ("Full_Name", ["full_name"]),
   ("Age", ["age"]),
   ("Other_Observed_Names", ["other_observed_names"]),
   ("Relatives", ["relatives"]),
   ("Resident_Phone_Number", ["resident_phone_number"]),
   ("Other_Resident_Phone_Number", ["other_resident_phone_number"])]

/-- `get_field_value`: the first source key whose value is present and not
the empty string. -/
def get_field_value (lead : StrMap) : List String → Option String
  | [] => none
  | k :: ks =>
    match agetV lead k with
    | some v => if v != "" then some v else get_field_value lead ks
    | none => get_field_value lead ks

/-- Decimal digits to a natural number. -/
def digitsToNat (l : List Char) : Nat :=
  l.foldl (fun n c => n * 10 + (c.toNat - 48)) 0

/-- Python `int(s)` on a string of digits and dashes (the only shapes the
callers feed it): an optional single leading sign before at least one
digit; anything else raises and is mapped to `none`. -/
def pyIntParse : List Char → Option Int
  | [] => none
  | '-' :: ds =>
    if !ds.isEmpty && ds.all Char.isDigit then some (-(digitsToNat ds : Int))
    else none
  | ds =>
    if ds.all Char.isDigit then some (digitsToNat ds : Int) else none

/-- `parse_integer`: take the part before the first dot, keep digits and
dashes, and parse with `int`. -/
def parse_integer (v : String) : Option Int :=
  if v == "" then none
  else
    let clean := v.toList.takeWhile (fun c => c != '.')
    pyIntParse (clean.filter (fun c => c.isDigit || c == '-'))

/-- `int(float(l))` for a string of digits and dots as matched by
`re.match(r'[\d.]+', ...)`: a valid Python float literal here has at most
one dot and at least one digit, and truncates to its integer part.  The
embedding is exact-integer; IEEE-754 rounding of values beyond 2^53 is
outside the model. -/
def floatIntOfDigitsDots (l : List Char) : Option Int :=
  if l.count '.' ≤ 1 && l.any Char.isDigit then
    some (Int.ofNat (digitsToNat (l.takeWhile Char.isDigit)))
  else none

/-- `parse_price`: drop `$` and `,`, strip, take the maximal leading run of
digits and dots, and truncate through `float`. -/
def parse_price (v : String) : Option Int :=
  if v == "" then none
  else
    let clean := pyStripL (v.toList.filter (fun c => c != '$' && c != ','))
    let np := clean.takeWhile (fun c => c.isDigit || c == '.')
    if np.isEmpty then none else floatIntOfDigitsDots np

/-- `parse_photos_json`: comma-split, strip, keep entries starting with
`http`; an empty result is `None`. -/
def parse_photos_json : Option String → Option (List String)
  | none => none
  | some s =>
    if s == "" then none
    else
      let urls := ((splitOnCommas s.toList).map (fun p => String.mk (pyStripL p))).filter
        (fun u => u.startsWith "http")
      if urls.isEmpty then none else some urls

/-- `parse_datetime` around the external pandas parser. -/
def parse_datetime (pdParse : String → Option String) (v : String) : Option String :=
  if v == "" then none else pdParse v

/-- The union of all mapped source keys (what `build_other_json` excludes). -/
def allMappedSourceKeys : List String :=
  FIELD_MAPPINGS.foldl (fun acc e => acc ++ e.2) []

/-- `build_other_json`: every unmapped key with a non-empty value.  The
source iterates a Python set; the model keeps lead order.  All values here
are strings, so the serialization-safety pass is the identity. -/
def build_other_json (lead : StrMap) : Option (List (String × String)) :=
  let other := lead.filter (fun e =>
    !(allMappedSourceKeys.contains e.1) && e.2 != "")
  if other.isEmpty then none else some other

/-- `re.match(r'^\d+\s+(minute|hour|day|week|month|year)', v, re.I)`. -/
def isRelativeTime (v : String) : Bool :=
  let l := v.toList
  let ds := l.takeWhile Char.isDigit
  if ds.isEmpty then false
  else
    let r1 := l.drop ds.length
    if (r1.takeWhile pyIsSpace).isEmpty then false
    else
      let r2 := (r1.dropWhile pyIsSpace).map Char.toLower
      ["minute", "hour", "day", "week", "month", "year"].any
        (fun w => w.toList.isPrefixOf r2)

/-- `re.search(r'\d{4}', v)`. -/
def hasFourDigitRun : List Char → Bool
  | d1 :: d2 :: d3 :: d4 :: rest =>
    (d1.isDigit && d2.isDigit && d3.isDigit && d4.isDigit) ||
      hasFourDigitRun (d2 :: d3 :: d4 :: rest)
  | _ => false

def nonDateKeywords : List String :=
  ["single-family", "family", "condo", "townhouse", "apartment", "commercial"]

/-- The payload under construction: column name to optional value (a `none`
is a column the final cleanup drops, matching `pop` / absent). -/
abbrev Payload := List (String × Option DBValue)

def pget (p : Payload) (k : String) : Option DBValue :=
  ((p.find? (fun e => e.1 == k)).map (·.2)).join

def pset (p : Payload) (k : String) (v : Option DBValue) : Payload :=
  asetV p k v

/-- Python truthiness of a payload cell. -/
def truthyDB : Option DBValue → Bool
  | none => false
  | some (.s v) => v != ""
  | some (.i n) => n != 0
  | some (.b bv) => bv
  | some (.strList l) => !l.isEmpty
  | some (.obj l) => !l.isEmpty

def price_cols : List String :=
  ["list_price", "list_price_min", "list_price_max", "estimated_value",
   "Estimated_Equity", "Last_Sale_Amount"]

def int_cols : List String := ["year_built", "half_baths"]

def float_cols : List String := ["price_per_sqft", "ai_investment_score"]

def timestamp_fields : List String := ["time_listed", "Last_Sale_Date"]

/-- Apply one conversion to a column when its current value is truthy (the
values reaching the conversions are the raw strings of phase one). -/
def convertCol (p : Payload) (col : String) (f : String → Option DBValue) : Payload :=
  if truthyDB (pget p col) then
    match pget p col with
    | some (.s v) => pset p col (f v)
    | _ => p
  else p

/-- One timestamp column of the defensive re-validation: relative-time
strings and year-free category labels are popped; otherwise the external
parser decides. -/
def validateTimestampCol (pdParse : String → Option String) (p : Payload)
    (field : String) : Payload :=
  if truthyDB (pget p field) then
    match pget p field with
    | some (.s raw) =>
      if isRelativeTime (pyStripS raw) then pset p field none
      else if !hasFourDigitRun (pyStripS raw).toList &&
          nonDateKeywords.any
            (fun kw => pyContains (pyLowerS (pyStripS raw)) kw) then
        pset p field none
      else
        match parse_datetime pdParse (pyStripS raw) with
        | some t => pset p field (some (.s t))
        | none => pset p field none
    | _ => p
  else p

/-- Phase one of `save_lead_to_supabase`: the `FIELD_MAPPINGS` pass. -/
def basePayload (lead : StrMap) : Payload :=
  FIELD_MAPPINGS.map (fun e => (e.1, (get_field_value lead e.2).map DBValue.s))

/-- The price/int/float conversions applied to the truthy columns. -/
def applyTypeConversions (pyFloat : String → Option DBValue) (p0 : Payload) :
    Payload :=
  let p1 := price_cols.foldl (fun p col =>
    convertCol p col (fun v => (parse_price v).map DBValue.i)) p0
  let p2 := int_cols.foldl (fun p col =>
    convertCol p col (fun v => (parse_integer v).map DBValue.i)) p1
  float_cols.foldl (fun p col =>
    convertCol p col (fun v =>
      pyFloat (pyStripS (String.mk (v.toList.filter (fun c => c != ','))))))
    p2

/-- The defensive timestamp re-validation pass. -/
def applyTimestampValidation (pdParse : String → Option String) (p : Payload) :
    Payload :=
  timestamp_fields.foldl (validateTimestampCol pdParse) p

/-- The bookkeeping columns: `scrape_date` (lead value or today),
`last_scraped_at`, `active`, `photos_json`, and the `other` bag. -/
def addBookkeeping (nowDate nowIso : String) (lead : StrMap) (p : Payload) :
    Payload :=
  let p5 := pset p "scrape_date"
    (some (.s ((agetV lead "scrape_date").getD nowDate)))
  let p6 := pset p5 "last_scraped_at" (some (.s nowIso))
  let p7 := pset p6 "active" (some (.b true))
  let p8 := pset p7 "photos_json"
    ((parse_photos_json (get_field_value lead ["photos"])).map DBValue.strList)
  pset p8 "other" ((build_other_json lead).map DBValue.obj)

/-- The payload construction of `save_lead_to_supabase`: the
`FIELD_MAPPINGS` pass, the price/int/float conversions, the timestamp
re-validation, the bookkeeping columns and `other` bag, and the final
`None`-dropping cleanup. -/
def buildPayload (pdParse : String → Option String)
    (pyFloat : String → Option DBValue) (nowDate nowIso : String)
    (lead : StrMap) : List (String × DBValue) :=
  (addBookkeeping nowDate nowIso lead
      (applyTimestampValidation pdParse
        (applyTypeConversions pyFloat (basePayload lead)))).filterMap
    (fun e => e.2.map (fun v => (e.1, v)))

/-- A persisted row and the store, keyed by `property_url`. -/
abbrev DBRow := List (String × DBValue)
abbrev Store := List (String × DBRow)

/-- Partial-column update of one row: provided columns overwrite, the rest
stay untouched. -/
def mergeRow (old new_ : DBRow) : DBRow :=
  new_.foldl (fun acc e => asetV acc e.1 e.2) old

/-- Modelled from the spec: the persistent store's upsert operation (the
store itself is an out-of-scope external collaborator; spec section 6 fixes
its contract: one table of rows, conflict target the natural key column,
partial-column updates leaving unspecified columns untouched, never
duplicating a row). -/
def upsertRow (store : Store) (key : String) (p : DBRow) : Store :=
  match store with
  | [] => [(key, p)]
  | (k, row) :: t =>
    if k == key then (k, mergeRow row p) :: t
    else (k, row) :: upsertRow t key p

/-- `save_lead_to_supabase`: reject an empty lead or a falsy
`property_url`; otherwise build the payload and upsert it with
`on_conflict='property_url'`, reporting success.  (The pandas NaN cleanup is
the identity on the string-valued leads of the model.) -/
def save_lead_to_supabase (pdParse : String → Option String)
    (pyFloat : String → Option DBValue) (nowDate nowIso : String)
    (store : Store) (lead : StrMap) : Store × Bool :=
  if lead.isEmpty || ((agetV lead "property_url").getD "") == "" then
    (store, false)
  else
    let property_url := (agetV lead "property_url").getD ""
    let payload := buildPayload pdParse pyFloat nowDate nowIso lead
    if !(payload.any (fun e => e.1 == "property_url")) then (store, false)
    else (upsertRow store property_url payload, true)

/-! ## `enrich_lead_task` and `run_enrichment_pipeline` -/

/-- Per-run counters. -/
structure Stats where
  enriched : Nat
  failed : Nat
  skipped : Nat
  saved_to_db : Nat
  deriving Repr, DecidableEq

/-- The world one task interacts with: the fetch outcomes, the document
obtained on fetch success, and whether an unexpected exception is raised by
the browser layer (covered by the outer `except`, which counts the item as
failed and returns the lead unchanged). -/
structure TaskWorld where
  fetch : FetchWorld
  doc : Document
  raiseUnexpected : Bool

/-- The column scan `for key in [...]`: first key present with a non-blank
value, returning `str(value).strip()`. -/
def firstColValue (lead : StrMap) : List String → Option String
  | [] => none
  | k :: ks =>
    match agetV lead k with
    | some v => if pyStripS v != "" then some (pyStripS v) else firstColValue lead ks
    | none => firstColValue lead ks

/-- The second, case-insensitive scan over all columns for an
`address`/`street` key (the loop keeps going past blank values). -/
def scanAddrKeys : StrMap → Option String
  | [] => none
  | (k, v) :: t =>
    if k != "" && v != "" && ["address", "street"].contains (pyLowerS k) then
      if pyStripS v != "" then some (pyStripS v) else scanAddrKeys t
    else scanAddrKeys t

/-- Outcome of the address-resolution prefix of `enrich_lead_task` (steps
1-3 plus the skip check and the `lead_data['address']` write-back).
Falsy (`None`/`''`) address components are represented by `""`. -/
inductive AddrStep
  | skip
  | go (address city state zip : String) (lead2 : StrMap)
  deriving Repr, DecidableEq

/-- The tail of the address-resolution step: the mandatory-component skip
check (`if not all([address, city, state])`) and the `lead_data['address']`
write-back. -/
def finishAddr (lead : StrMap) (r : String × String × String × String) :
    AddrStep :=
  match r with
  | (address, city, state, zipc) =>
    if address == "" || city == "" || state == "" then AddrStep.skip
    else
      AddrStep.go address city state zipc
        (if ((agetV lead "address").getD "") == "" && address != "" then
          asetV lead "address" address
        else lead)

/-- Steps 1-3 of `enrich_lead_task`: separate city/state/zip columns, the
address column (exact keys first, then the case-insensitive scan), the
optional `parse_full_address` decomposition when city or state is missing,
the mandatory-component skip check, and the `lead_data['address']`
write-back. -/
def addrStep (lead : StrMap) : AddrStep :=
  let city0 := (firstColValue lead ["city", "City", "CITY"]).getD ""
  let state0 := (firstColValue lead ["state", "State", "STATE"]).getD ""
  let zip0 := (firstColValue lead
    ["zip_code", "zip", "Zip", "ZIP", "zipcode", "ZipCode", "ZIPCODE"]).getD ""
  let full :=
    match firstColValue lead
        ["address", "street", "Address", "Street", "ADDRESS", "STREET"] with
    | some v => some v
    | none => scanAddrKeys lead
  let resolved :=
    match full with
    | some f =>
      if city0 != "" && state0 != "" then (f, city0, state0, zip0)
      else
        let parsed := parse_full_address (some f)
        let addr1 := match parsed.street with
          | some st => if st != "" then st else ""
          | none => ""
        let city1 := if city0 == "" then
            (match parsed.city with
             | some c => if c != "" then c else ""
             | none => "") else city0
        let state1 := if state0 == "" then
            (match parsed.state with
             | some st => if st != "" then st else ""
             | none => "") else state0
        let zip1 := if zip0 == "" then
            (match parsed.zip_code with
             | some z => if z != "" then z else ""
             | none => "") else zip0
        (addr1, city1, state1, zip1)
    | none => ("", city0, state0, zip0)
  finishAddr lead resolved

/-- `enrich_lead_task`: address resolution (skip on missing mandatory
components), TruePeopleSearch URL construction (a `ValueError` counts the
item as skipped, an off-domain URL as failed), the browser/navigation layer
(an unexpected exception is caught and counted as failed), the fetch retry
loop (exhaustion counts as failed), extraction, and the final
enriched/failed decision on whether any field was extracted. -/
def enrich_lead_task (lead : StrMap) (w : TaskWorld) (stats : Stats) :
    Stats × StrMap :=
  match addrStep lead with
  | .skip => ({ stats with skipped := stats.skipped + 1 }, lead)
  | .go address city state zipc lead2 =>
    match build_truepeoplesearch_url (some address) (some city) (some state)
        (some zipc) with
    | .error _ => ({ stats with skipped := stats.skipped + 1 }, lead2)
    | .ok url =>
      if !pyContains (pyLowerS url) "truepeoplesearch.com" then
        ({ stats with failed := stats.failed + 1 }, lead2)
      else if w.raiseUnexpected then
        ({ stats with failed := stats.failed + 1 }, lead2)
      else if !(fetchLoop w.fetch).1 then
        ({ stats with failed := stats.failed + 1 }, lead2)
      else
        let extracted := extract_all w.doc
        if !extracted.isEmpty then
          ({ stats with enriched := stats.enriched + 1 }, aupdate lead2 extracted)
        else
          ({ stats with failed := stats.failed + 1 }, lead2)

/-- The enrichment phase: every lead runs through `enrich_lead_task`
against its world, the returned records collected in order.  The
`asyncio.Semaphore` bounds concurrency only; within the single-threaded
event loop each counter increment is atomic, so the sequential fold is
faithful for stats and results. -/
def enrichPhase (worldOf : Nat → TaskWorld) :
    Nat → List StrMap → Stats → List StrMap → Stats × List StrMap
  | _, [], stats, acc => (stats, acc.reverse)
  | i, lead :: rest, stats, acc =>
    let r := enrich_lead_task lead (worldOf i) stats
    enrichPhase worldOf (i + 1) rest r.1 (r.2 :: acc)

/-- The upload phase: every enriched result is offered to
`save_lead_to_supabase`, counting successes. -/
def uploadPhase (pdParse : String → Option String)
    (pyFloat : String → Option DBValue) (nowDate nowIso : String) :
    List StrMap → Stats → Store → Stats × Store
  | [], stats, store => (stats, store)
  | lead :: rest, stats, store =>
    let r := save_lead_to_supabase pdParse pyFloat nowDate nowIso store lead
    uploadPhase pdParse pyFloat nowDate nowIso rest
      (if r.2 then { stats with saved_to_db := stats.saved_to_db + 1 } else stats)
      r.1

/-- `run_enrichment_pipeline` after the CSV load: zeroed stats, the
enrichment phase over every lead, then (when any results exist) the CSV
export (no observable state here) and the upload phase. -/
def run_enrichment_pipeline (leads : List StrMap) (worldOf : Nat → TaskWorld)
    (pdParse : String → Option String) (pyFloat : String → Option DBValue)
    (nowDate nowIso : String) (store : Store) :
    Stats × List StrMap × Store :=
  let phase1 := enrichPhase worldOf 0 leads ⟨0, 0, 0, 0⟩ []
  if phase1.2.isEmpty then (phase1.1, phase1.2, store)
  else
    let phase2 := uploadPhase pdParse pyFloat nowDate nowIso phase1.2 phase1.1 store
    (phase2.1, phase1.2, phase2.2)

/-! ## Basic lemmas -/

theorem mk_eq_empty_iff (l : List Char) : String.mk l = "" ↔ l = [] := by
  constructor
  · intro h
    have := congrArg String.data h
    simpa using this
  · intro h; subst h; rfl

theorem mk_cons_ne_empty (c : Char) (l : List Char) : String.mk (c :: l) ≠ "" := by
  intro h
  simpa using (mk_eq_empty_iff (c :: l)).mp h

theorem mem_dropWhile_of_neg {α : Type} {p : α → Bool} {l : List α} {c : α}
    (hc : c ∈ l) (hp : p c = false) : c ∈ l.dropWhile p := by
  induction l with
  | nil => cases hc
  | cons a t ih =>
    rw [List.dropWhile]
    by_cases h : p a
    · rw [h]
      rcases List.mem_cons.mp hc with rfl | hmem
      · rw [hp] at h; cases h
      · exact ih hmem
    · rw [Bool.not_eq_true] at h
      rw [h]
      exact hc

theorem pyStripL_ne_nil {l : List Char} {c : Char} (hc : c ∈ l)
    (hns : pyIsSpace c = false) : pyStripL l ≠ [] := by
  intro h
  unfold pyStripL at h
  rw [List.reverse_eq_nil_iff, List.dropWhile_eq_nil_iff] at h
  have h1 : c ∈ (l.dropWhile pyIsSpace).reverse :=
    List.mem_reverse.mpr (mem_dropWhile_of_neg hc hns)
  have := h _ h1
  rw [hns] at this
  cases this

theorem dropWhile_eq_self_of_all {α : Type} {p : α → Bool} {l : List α}
    (h : ∀ c ∈ l, p c = false) : l.dropWhile p = l := by
  cases l with
  | nil => rfl
  | cons a t =>
    rw [List.dropWhile, h a (List.mem_cons_self a t)]

theorem pyStripL_all_nonspace {l : List Char}
    (h : ∀ c ∈ l, pyIsSpace c = false) : pyStripL l = l := by
  unfold pyStripL
  rw [dropWhile_eq_self_of_all h,
    dropWhile_eq_self_of_all (fun c hc => h c (List.mem_reverse.mp hc)),
    List.reverse_reverse]

theorem space_false_of_isAlpha {c : Char} (h : c.isAlpha = true) :
    pyIsSpace c = false := by
  have key : pyIsSpace c = true → c.isAlpha = false := by
    intro hs
    unfold pyIsSpace at hs
    simp only [Bool.or_eq_true, beq_iff_eq] at hs
    rcases hs with ((((rfl | rfl) | rfl) | rfl) | rfl) | rfl <;> decide
  cases hpy : pyIsSpace c with
  | false => rfl
  | true => rw [key hpy] at h; cases h

theorem space_false_of_isDigit {c : Char} (h : c.isDigit = true) :
    pyIsSpace c = false := by
  have key : pyIsSpace c = true → c.isDigit = false := by
    intro hs
    unfold pyIsSpace at hs
    simp only [Bool.or_eq_true, beq_iff_eq] at hs
    rcases hs with ((((rfl | rfl) | rfl) | rfl) | rfl) | rfl <;> decide
  cases hpy : pyIsSpace c with
  | false => rfl
  | true => rw [key hpy] at h; cases h

theorem pyUpperS_ne_empty {s : String} (h : s ≠ "") : pyUpperS s ≠ "" := by
  intro hc
  unfold pyUpperS at hc
  rw [mk_eq_empty_iff, List.map_eq_nil_iff] at hc
  exact h (by cases s with | mk d => simpa [String.toList] using congrArg String.mk hc)

/-! ## C9: ZIP normalization -/

theorem firstDigitRun_eq (l : List Char) :
    firstDigitRun l = (l.dropWhile (fun c => !c.isDigit)).takeWhile Char.isDigit := by
  induction l with
  | nil => rfl
  | cons c cs ih =>
    by_cases h : c.isDigit
    · simp [firstDigitRun, h, List.dropWhile, List.takeWhile]
    · simp [firstDigitRun, h, List.dropWhile, ih]

/-- C9: `normalize_zip` extracts the first run of digits, keeps the first 5
when the run has at least 5, left-pads with zeros to 5 when shorter, and
returns `""` for empty or digit-free input; `"1234" ↦ "01234"`,
`"123456789" ↦ "12345"`, `"" ↦ ""`. -/
theorem normalize_zip_meets_spec :
    (∀ s : String, normalize_zip s = zipNormOfSpec s) ∧
    normalize_zip "1234" = "01234" ∧
    normalize_zip "123456789" = "12345" ∧
    normalize_zip "" = "" := by
  refine ⟨?_, by decide, by decide, by decide⟩
  intro s
  unfold normalize_zip zipNormOfSpec
  rw [firstDigitRun_eq]
  by_cases h : s = ""
  · subst h; simp
  · simp [h]

/-! ## C6: totality of the address parser on empty input -/

/-- C6: the address parser is total by construction (it is a Lean function
on every `Option String`), and for `None`, empty, or whitespace-only input
it returns the all-`None` `ParsedAddress`. -/
theorem parse_full_address_none_empty :
    parse_full_address none = ParsedAddress.allNone ∧
    ∀ s : String, pyStripS s = "" → parse_full_address (some s) = ParsedAddress.allNone := by
  refine ⟨rfl, ?_⟩
  intro s h
  have hlist : pyStripL s.toList = [] := (mk_eq_empty_iff (pyStripL s.toList)).mp h
  simp only [parse_full_address]
  rw [hlist]
  simp

/-- Witness for C6 at the whitespace-only input `" "`. -/
theorem parse_full_address_none_empty_witness :
    pyStripS " " = "" ∧ parse_full_address (some " ") = ParsedAddress.allNone :=
  ⟨by decide, parse_full_address_none_empty.2 " " (by decide)⟩

/-! ## C10: the URL builder -/

/-- C10: `build_truepeoplesearch_url` raises `ValueError` exactly when one
of address, city, state is `None` or empty; otherwise it returns the
TruePeopleSearch `resultaddress` URL carrying the URL-encoded
`streetaddress` and `citystatezip` parameters, and every returned URL has
the TruePeopleSearch prefix (never another domain). -/
theorem build_truepeoplesearch_url_spec (a c s z : Option String) :
    ((falsyOpt a || falsyOpt c || falsyOpt s) = true →
      build_truepeoplesearch_url a c s z =
        Except.error "Address, city, and state are required") ∧
    ((falsyOpt a || falsyOpt c || falsyOpt s) = false →
      build_truepeoplesearch_url a c s z =
        Except.ok ("https://www.truepeoplesearch.com/resultaddress?" ++
          urlencodeParams (pyStripS (pyFmtOpt a))
            (pyStripS (pyFmtOpt c ++ ", " ++ pyFmtOpt s ++ " " ++ pyFmtOpt z)))) ∧
    (∀ u, build_truepeoplesearch_url a c s z = Except.ok u →
      "https://www.truepeoplesearch.com/resultaddress?".toList.isPrefixOf u.toList = true) := by
  refine ⟨?_, ?_, ?_⟩
  · intro h; unfold build_truepeoplesearch_url; rw [h]; rfl
  · intro h; unfold build_truepeoplesearch_url; rw [h]; rfl
  · intro u hu
    unfold build_truepeoplesearch_url at hu
    by_cases h : (falsyOpt a || falsyOpt c || falsyOpt s) = true
    · rw [h] at hu; cases hu
    · rw [Bool.not_eq_true] at h
      rw [h] at hu
      simp only [Bool.false_eq_true, if_false, Except.ok.injEq] at hu
      rw [List.isPrefixOf_iff_prefix, ← hu]
      have hsplit : ("https://www.truepeoplesearch.com/resultaddress?" ++
          urlencodeParams (pyStripS (pyFmtOpt a))
            (pyStripS (pyFmtOpt c ++ ", " ++ pyFmtOpt s ++ " " ++ pyFmtOpt z))).toList =
          "https://www.truepeoplesearch.com/resultaddress?".toList ++
            (urlencodeParams (pyStripS (pyFmtOpt a))
              (pyStripS (pyFmtOpt c ++ ", " ++ pyFmtOpt s ++ " " ++ pyFmtOpt z))).toList := by
        simp [String.toList]
      rw [hsplit]
      exact List.prefix_append _ _

/-- Witness for C10 on concrete arguments. -/
theorem build_truepeoplesearch_url_spec_witness :
    build_truepeoplesearch_url (some "3424 Firestone") (some "Dallas") (some "TX")
        (some "75201") =
      Except.ok ("https://www.truepeoplesearch.com/resultaddress?" ++
        urlencodeParams (pyStripS (pyFmtOpt (some "3424 Firestone")))
          (pyStripS (pyFmtOpt (some "Dallas") ++ ", " ++ pyFmtOpt (some "TX") ++ " " ++
            pyFmtOpt (some "75201")))) :=
  (build_truepeoplesearch_url_spec (some "3424 Firestone") (some "Dallas") (some "TX")
    (some "75201")).2.1 (by decide)

/-! ## C7: counterexample — a field can be the empty string -/

/-- C7 counterexample: on input `"12345"` the parser returns
`street = some ""` — an empty-string field, refuting the claim that every
field is either `None` or non-empty (the ZIP is consumed by the residual
fallback, leaving an empty street which is stored as `''`, not `None`). -/
theorem parse_full_address_empty_street_cex :
    (parse_full_address (some "12345")).street = some "" ∧
    (parse_full_address (some "12345")).zip_code = some "12345" := by
  constructor <;> rfl

/-! ## C7 (amended): state and zip are never the empty string -/

/-- State/zip half of the claimed field invariant. -/
def stateZipNonEmpty (r : ParsedAddress) : Prop :=
  r.state ≠ some "" ∧ r.zip_code ≠ some ""

theorem zipAtEnd_shape {l z : List Char} (h : zipAtEnd l = some z) :
    z ≠ [] ∧ ∀ c ∈ z, pyIsSpace c = false := by
  unfold zipAtEnd at h
  split at h
  case h_2 => cases h
  case h_1 d1 d2 d3 d4 d5 rest =>
    split at h
    case isFalse => cases h
    case isTrue hdig =>
      simp only [Bool.and_eq_true] at hdig
      obtain ⟨⟨⟨⟨h1, h2⟩, h3⟩, h4⟩, h5⟩ := hdig
      split at h
      case h_2 =>
        split at h
        case isFalse => cases h
        case isTrue =>
          cases h
          refine ⟨by simp, ?_⟩
          intro c hc
          simp only [List.mem_cons, List.not_mem_nil, or_false] at hc
          rcases hc with rfl | rfl | rfl | rfl | rfl <;>
            exact space_false_of_isDigit ‹_›
      case h_1 e1 e2 e3 e4 tail =>
        split at h
        case isTrue hdig2 =>
          simp only [Bool.and_eq_true] at hdig2
          obtain ⟨⟨⟨⟨g1, g2⟩, g3⟩, g4⟩, _⟩ := hdig2
          cases h
          refine ⟨by simp, ?_⟩
          intro c hc
          simp only [List.mem_cons, List.not_mem_nil, or_false] at hc
          rcases hc with rfl | rfl | rfl | rfl | rfl | rfl | rfl | rfl | rfl | rfl
          · exact space_false_of_isDigit h1
          · exact space_false_of_isDigit h2
          · exact space_false_of_isDigit h3
          · exact space_false_of_isDigit h4
          · exact space_false_of_isDigit h5
          · decide
          · exact space_false_of_isDigit g1
          · exact space_false_of_isDigit g2
          · exact space_false_of_isDigit g3
          · exact space_false_of_isDigit g4
        case isFalse =>
          split at h
          case isFalse => cases h
          case isTrue =>
            cases h
            refine ⟨by simp, ?_⟩
            intro c hc
            simp only [List.mem_cons, List.not_mem_nil, or_false] at hc
            rcases hc with rfl | rfl | rfl | rfl | rfl <;>
              exact space_false_of_isDigit ‹_›

theorem p1Tail_shape {l : List Char} {st : String} {zp : Option String}
    (h : p1Tail l = some (st, zp)) : st ≠ "" ∧ zp ≠ some "" := by
  unfold p1Tail at h
  split at h
  case h_2 => cases h
  case h_1 a b rest =>
    split at h
    case isFalse => cases h
    case isTrue =>
      split at h
      case isTrue =>
        cases h
        exact ⟨mk_cons_ne_empty _ _, by simp⟩
      case isFalse =>
        split at h
        case isTrue => cases h
        case isFalse =>
          split at h
          case h_2 => cases h
          case h_1 z hz =>
            cases h
            refine ⟨mk_cons_ne_empty _ _, ?_⟩
            intro hzc
            have hzn := (zipAtEnd_shape hz).1
            have := (mk_eq_empty_iff z).mp (Option.some.injEq _ _ ▸ (by
              simpa using hzc))
            exact hzn this

theorem p1AfterComma_shape {l : List Char} {city st : String} {zp : Option String}
    (h : p1AfterComma l = some (city, st, zp)) : st ≠ "" ∧ zp ≠ some "" := by
  unfold p1AfterComma at h
  split at h
  case h_2 => cases h
  case h_1 seg tail =>
    split at h
    case isTrue => cases h
    case isFalse =>
      split at h
      case h_2 => cases h
      case h_1 st0 zp0 htail =>
        cases h
        exact p1Tail_shape htail

theorem p1Find_stateZip {before l : List Char} {r : ParsedAddress}
    (h : p1Find before l = some r) : stateZipNonEmpty r := by
  induction l generalizing before with
  | nil => cases h
  | cons c rest ih =>
    rw [p1Find] at h
    split at h
    case isFalse => exact ih h
    case isTrue =>
      split at h
      case isFalse => exact ih h
      case isTrue =>
        split at h
        case h_2 => exact ih h
        case h_1 city st zp hac =>
          cases h
          obtain ⟨h1, h2⟩ := p1AfterComma_shape hac
          exact ⟨by simpa using h1, h2⟩

theorem dropWhile_cons_head {α : Type} {p : α → Bool} {l : List α} {c : α}
    {t : List α} (h : l.dropWhile p = c :: t) : p c = false := by
  induction l with
  | nil => cases h
  | cons a r ih =>
    rw [List.dropWhile] at h
    cases hpa : p a with
    | true => rw [hpa] at h; exact ih h
    | false =>
      rw [hpa] at h
      simp only [List.cons.injEq] at h
      obtain ⟨rfl, rfl⟩ := h
      exact hpa

theorem pySplitGo_tokens {fuel : Nat} {l t : List Char}
    (ht : t ∈ pySplitGo fuel l) : t ≠ [] ∧ ∀ c ∈ t, pyIsSpace c = false := by
  induction fuel generalizing l with
  | zero => cases ht
  | succ fuel ih =>
    simp only [pySplitGo] at ht
    by_cases he : (l.dropWhile pyIsSpace).isEmpty
    · rw [if_pos he] at ht; cases ht
    · rw [if_neg he] at ht
      rcases List.mem_cons.mp ht with rfl | hmem
      · have hl1 : l.dropWhile pyIsSpace ≠ [] := by
          simpa [List.isEmpty_iff] using he
        obtain ⟨c, t1, hct⟩ := List.exists_cons_of_ne_nil hl1
        have hc : pyIsSpace c = false := dropWhile_cons_head hct
        constructor
        · rw [hct]
          simp [List.takeWhile_cons, hc]
        · intro x hx
          have := List.mem_takeWhile_imp hx
          simpa using this
      · exact ih hmem

theorem pySplit_tokens {l t : List Char} (ht : t ∈ pySplit l) :
    t ≠ [] ∧ ∀ c ∈ t, pyIsSpace c = false :=
  pySplitGo_tokens ht

theorem p2Tokens_stateZip {l : List Char} {r : ParsedAddress}
    (h : p2Tokens l = some r) : stateZipNonEmpty r := by
  simp only [p2Tokens] at h
  split at h
  case isFalse => cases h
  case isTrue h4 =>
    split at h
    case h_2 => cases h
    case h_1 i hfind =>
      split at h
      case isFalse => cases h
      case isTrue hi =>
        cases h
        have hpred := List.find?_some hfind
        simp only [Bool.and_eq_true, beq_iff_eq, List.all_eq_true] at hpred
        obtain ⟨hlen, hall⟩ := hpred
        constructor
        · have htokne : (pySplit l).getD i [] ≠ [] := by
            intro hnil
            rw [hnil] at hlen
            cases hlen
          have hstrip : pyStripL ((pySplit l).getD i []) = (pySplit l).getD i [] :=
            pyStripL_all_nonspace (fun c hc =>
              space_false_of_isAlpha (hall c hc))
          simp only [ne_eq, Option.some.injEq]
          rw [hstrip]
          exact pyUpperS_ne_empty (fun hh => htokne ((mk_eq_empty_iff _).mp hh))
        · by_cases hz : i + 1 < (pySplit l).length
          · simp only [if_pos hz, ne_eq, Option.some.injEq]
            have hmem : (pySplit l).getD (i + 1) [] ∈ pySplit l := by
              rw [List.getD_eq_getElem _ _ hz]
              exact List.getElem_mem hz
            obtain ⟨hne, hns⟩ := pySplit_tokens hmem
            rw [pyStripL_all_nonspace hns]
            intro hh
            exact hne ((mk_eq_empty_iff _).mp hh)
          · simp [if_neg hz]

theorem p3Go_shape {fuel : Nat} {l cap z : List Char}
    (h : p3Go fuel l = some (cap, z)) :
    (∃ c ∈ cap, pyIsSpace c = false) ∧ z ≠ [] ∧ ∀ c ∈ z, pyIsSpace c = false := by
  induction fuel generalizing l cap z with
  | zero => cases h
  | succ fuel ih =>
    simp only [p3Go] at h
    split at h
    case isTrue => cases h
    case isFalse hlen =>
      split at h
      case isTrue => cases h
      case isFalse hws =>
        split at h
        case h_1 cap0 z0 hrec =>
          cases h
          obtain ⟨⟨c, hc, hcs⟩, hz⟩ := ih hrec
          exact ⟨⟨c, by simp [hc], hcs⟩, hz⟩
        case h_2 =>
          split at h
          case h_2 => cases h
          case h_1 z1 hz1 =>
            cases h
            have htokne : l.takeWhile Char.isAlpha ≠ [] := by
              intro hnil
              rw [hnil] at hlen
              exact hlen (by decide)
            obtain ⟨c, t1, hct⟩ := List.exists_cons_of_ne_nil htokne
            have hcalpha : c.isAlpha = true := by
              have : c ∈ l.takeWhile Char.isAlpha := by
                rw [hct]; exact List.mem_cons_self _ _
              exact List.mem_takeWhile_imp this
            exact ⟨⟨c, by rw [hct]; exact List.mem_cons_self _ _,
              space_false_of_isAlpha hcalpha⟩, zipAtEnd_shape hz1⟩

theorem p3AfterComma_shape {l : List Char} {city stName z : String}
    (h : p3AfterComma l = some (city, stName, z)) : stName ≠ "" ∧ z ≠ "" := by
  unfold p3AfterComma at h
  split at h
  case h_2 => cases h
  case h_1 seg tail =>
    split at h
    case isTrue => cases h
    case isFalse =>
      split at h
      case h_2 => cases h
      case h_1 cap z0 htail =>
        cases h
        unfold p3Tail at htail
        obtain ⟨⟨c, hc, hcs⟩, hzne, hzns⟩ := p3Go_shape htail
        constructor
        · intro hh
          exact pyStripL_ne_nil hc hcs ((mk_eq_empty_iff _).mp hh)
        · rw [pyStripL_all_nonspace hzns]
          intro hh
          exact hzne ((mk_eq_empty_iff _).mp hh)

theorem convert_state_some_ne_empty {s v : String}
    (h : convert_state_name_to_abbr s = some v) : v ≠ "" := by
  unfold convert_state_name_to_abbr at h
  rcases hf : stateMap.find? (fun e => e.1 == pyLowerS s) with _ | e
  · rw [hf] at h; cases h
  · rw [hf] at h
    have h2 : e.2 = v := by simpa using h
    subst h2
    have hmem := List.mem_of_find?_eq_some hf
    have hforall : ∀ x ∈ stateMap, x.2 ≠ "" := by decide
    exact hforall e hmem

theorem p3Find_stateZip {before l : List Char} {r : ParsedAddress}
    (h : p3Find before l = some r) : stateZipNonEmpty r := by
  induction l generalizing before with
  | nil => cases h
  | cons c rest ih =>
    rw [p3Find] at h
    split at h
    case isFalse => exact ih h
    case isTrue =>
      split at h
      case isFalse => exact ih h
      case isTrue =>
        split at h
        case h_2 => exact ih h
        case h_1 city stName z hac =>
          cases h
          obtain ⟨hs, hz⟩ := p3AfterComma_shape hac
          constructor
          · simp only [ne_eq, Option.some.injEq]
            rcases hcv : convert_state_name_to_abbr stName with _ | v
            · simp only [hcv, Option.getD_none]
              exact fun hh => pyUpperS_ne_empty hs hh
            · simp only [hcv, Option.getD_some]
              exact convert_state_some_ne_empty hcv
          · simpa using hz

theorem zipThenSpaces_shape {l z : List Char} (h : zipThenSpaces l = some z) :
    z ≠ [] ∧ ∀ c ∈ z, pyIsSpace c = false := by
  unfold zipThenSpaces at h
  split at h
  case h_2 => cases h
  case h_1 d1 d2 d3 d4 d5 rest =>
    split at h
    case isFalse => cases h
    case isTrue hdig =>
      simp only [Bool.and_eq_true] at hdig
      obtain ⟨⟨⟨⟨h1, h2⟩, h3⟩, h4⟩, h5⟩ := hdig
      split at h
      case h_2 =>
        split at h
        case isFalse => cases h
        case isTrue =>
          cases h
          refine ⟨by simp, ?_⟩
          intro c hc
          simp only [List.mem_cons, List.not_mem_nil, or_false] at hc
          rcases hc with rfl | rfl | rfl | rfl | rfl <;>
            exact space_false_of_isDigit ‹_›
      case h_1 e1 e2 e3 e4 tail =>
        split at h
        case isTrue hdig2 =>
          simp only [Bool.and_eq_true] at hdig2
          obtain ⟨⟨⟨⟨g1, g2⟩, g3⟩, g4⟩, _⟩ := hdig2
          cases h
          refine ⟨by simp, ?_⟩
          intro c hc
          simp only [List.mem_cons, List.not_mem_nil, or_false] at hc
          rcases hc with rfl | rfl | rfl | rfl | rfl | rfl | rfl | rfl | rfl | rfl
          · exact space_false_of_isDigit h1
          · exact space_false_of_isDigit h2
          · exact space_false_of_isDigit h3
          · exact space_false_of_isDigit h4
          · exact space_false_of_isDigit h5
          · decide
          · exact space_false_of_isDigit g1
          · exact space_false_of_isDigit g2
          · exact space_false_of_isDigit g3
          · exact space_false_of_isDigit g4
        case isFalse =>
          split at h
          case isFalse => cases h
          case isTrue =>
            cases h
            refine ⟨by simp, ?_⟩
            intro c hc
            simp only [List.mem_cons, List.not_mem_nil, or_false] at hc
            rcases hc with rfl | rfl | rfl | rfl | rfl <;>
              exact space_false_of_isDigit ‹_›

theorem fbZip_shape {acc l z pre : List Char} {pw : Bool}
    (h : fbZip acc pw l = some (z, pre)) :
    z ≠ [] ∧ ∀ c ∈ z, pyIsSpace c = false := by
  induction l generalizing acc pw with
  | nil => cases h
  | cons c rest ih =>
    rw [fbZip] at h
    split at h
    case isTrue =>
      split at h
      case h_1 z0 hz0 =>
        cases h
        exact zipThenSpaces_shape hz0
      case h_2 => exact ih h
    case isFalse => exact ih h

theorem fbStateAt_shape {l st rem : List Char}
    (h : fbStateAt l = some (st, rem)) : ∃ a b, st = [a, b] := by
  unfold fbStateAt at h
  split at h
  case h_2 => cases h
  case h_1 a b rest =>
    split at h
    case isFalse => cases h
    case isTrue =>
      split at h
      case isTrue => cases h
      case isFalse =>
        split at h
        case h_2 => cases h
        case h_1 f1 f2 f3 f4 f5 r3 =>
          split at h
          case isFalse => cases h
          case isTrue =>
            cases h
            exact ⟨a, b, rfl⟩

theorem fbStateGo_found {fuel : Nat} {found : Option (List Char)}
    {acc l : List Char} {pw : Bool} {st : List Char}
    (hf : ∀ s0, found = some s0 → s0 ≠ [])
    (h : (fbStateGo fuel found acc pw l).1 = some st) : st ≠ [] := by
  induction fuel generalizing found acc pw l with
  | zero => exact hf st h
  | succ fuel ih =>
    simp only [fbStateGo] at h
    split at h
    case h_1 => exact hf st h
    case h_2 c rest =>
      split at h
      case isTrue =>
        split at h
        case h_1 stv rem hat =>
          refine ih ?_ h
          intro s0 hs0
          cases hfound : found with
          | some x =>
            rw [hfound] at hs0
            rw [show (some x).orElse (fun _ => some stv) = some x from rfl] at hs0
            exact (Option.some.inj hs0) ▸ hf x hfound
          | none =>
            rw [hfound] at hs0
            rw [show (Option.none).orElse (fun _ => some stv) = some stv from rfl]
              at hs0
            obtain ⟨a, b, hab⟩ := fbStateAt_shape hat
            rw [← Option.some.inj hs0, hab]
            simp
        case h_2 => exact ih hf h
      case isFalse => exact ih hf h

theorem fallbackZipStep_fst (addr : List Char) :
    (fallbackZipStep addr).1 ≠ some "" := by
  unfold fallbackZipStep
  split
  next z pre hz =>
    simp only [ne_eq, Option.some.injEq]
    obtain ⟨hne, hns⟩ := fbZip_shape hz
    rw [pyStripL_all_nonspace hns]
    intro hh
    exact hne ((mk_eq_empty_iff _).mp hh)
  next => simp

theorem fallbackStateStep_fst (a1 : List Char) :
    (fallbackStateStep a1).1 ≠ some "" := by
  unfold fallbackStateStep
  split
  next st remainder hgo =>
    simp only [ne_eq, Option.some.injEq]
    have h1 : (fbStateGo (a1.length + 1) none [] false a1).1 = some st := by
      rw [hgo]
    have hstne : st ≠ [] :=
      fbStateGo_found (fun s0 hs0 => Option.noConfusion hs0) h1
    exact fun hh => pyUpperS_ne_empty (fun h2 => hstne ((mk_eq_empty_iff _).mp h2)) hh
  next => simp

theorem parseFallback_stateZip (addr : List Char) :
    stateZipNonEmpty (parseFallback addr) := by
  simp only [parseFallback]
  split
  · split
    · exact ⟨fallbackStateStep_fst _, fallbackZipStep_fst _⟩
    · exact ⟨fallbackStateStep_fst _, fallbackZipStep_fst _⟩
  · exact ⟨fallbackStateStep_fst _, fallbackZipStep_fst _⟩

/-- C7 (amended): whatever the input — including `None` — the `state` and
`zip_code` fields of the returned `ParsedAddress` are never the empty
string: each is either `None` or non-empty.  (The original claim extended
this to `street` and `city`, which is refuted by
`parse_full_address_empty_street_cex`.) -/
theorem parse_full_address_state_zip_never_empty (input : Option String) :
    stateZipNonEmpty (parse_full_address input) := by
  cases input with
  | none =>
    exact ⟨by simp [parse_full_address, ParsedAddress.allNone],
           by simp [parse_full_address, ParsedAddress.allNone]⟩
  | some s =>
    simp only [parse_full_address]
    split
    · exact ⟨by simp [ParsedAddress.allNone], by simp [ParsedAddress.allNone]⟩
    · split
      next r hr => exact p1Find_stateZip hr
      next =>
        split
        · split
          next r hr => exact p2Tokens_stateZip hr
          next =>
            split
            next r hr => exact p3Find_stateZip hr
            next => exact parseFallback_stateZip _
        · split
          next r hr => exact p3Find_stateZip hr
          next => exact parseFallback_stateZip _

theorem toUpper_of_isUpper {c : Char} (h : c.isUpper = true) : c.toUpper = c := by
  unfold Char.isUpper at h
  simp only [Bool.and_eq_true, decide_eq_true_eq] at h
  obtain ⟨ha, hb⟩ := h
  have ha2 : 65 ≤ c.val.toNat := ha
  have hb2 : c.val.toNat ≤ 90 := hb
  unfold Char.toUpper
  simp only
  rw [if_neg]
  rintro ⟨h1, h2⟩
  unfold Char.toNat at h1
  omega

theorem isAlpha_of_isUpper {c : Char} (h : c.isUpper = true) : c.isAlpha = true := by
  simp [Char.isAlpha, h]

theorem strip_self_head_nonspace {c : Char} {t : List Char}
    (h : pyStripL (c :: t) = c :: t) : pyIsSpace c = false := by
  by_contra hc
  rw [Bool.not_eq_false] at hc
  have hlen : (pyStripL (c :: t)).length ≤ t.length := by
    unfold pyStripL
    rw [List.dropWhile_cons, hc]
    simp only [if_true]
    calc ((t.dropWhile pyIsSpace).reverse.dropWhile pyIsSpace).reverse.length
        = ((t.dropWhile pyIsSpace).reverse.dropWhile pyIsSpace).length :=
          List.length_reverse _
      _ ≤ (t.dropWhile pyIsSpace).reverse.length :=
          (List.dropWhile_suffix _).length_le
      _ = (t.dropWhile pyIsSpace).length := List.length_reverse _
      _ ≤ t.length := (List.dropWhile_suffix _).length_le
  rw [h] at hlen
  simp at hlen

theorem pyStripL_id_of_ends {l : List Char} (hne : l ≠ [])
    (hh : ∀ c, l.head? = some c → pyIsSpace c = false)
    (hl : ∀ c, l.getLast? = some c → pyIsSpace c = false) :
    pyStripL l = l := by
  obtain ⟨c, t, rfl⟩ := List.exists_cons_of_ne_nil hne
  unfold pyStripL
  rw [List.dropWhile_cons, hh c rfl]
  simp only [Bool.false_eq_true, if_false]
  have hrne : (c :: t).reverse ≠ [] := by simp
  obtain ⟨c2, t2, hct2⟩ := List.exists_cons_of_ne_nil hrne
  have hc2 : pyIsSpace c2 = false := by
    apply hl
    rw [← List.head?_reverse, hct2]
    rfl
  rw [hct2, List.dropWhile_cons, hc2]
  simp only [Bool.false_eq_true, if_false]
  rw [← hct2, List.reverse_reverse]

theorem p1Find_append_no_comma {pre post before : List Char}
    (hpre : ∀ c ∈ pre, c ≠ ',') :
    p1Find before (pre ++ post) = p1Find (before ++ pre) post := by
  induction pre generalizing before with
  | nil => simp
  | cons c t ih =>
    rw [List.cons_append, p1Find]
    rw [if_neg (hpre c (List.mem_cons_self c t))]
    rw [ih (fun x hx => hpre x (List.mem_cons_of_mem c hx))]
    simp [List.append_assoc]

theorem splitFirstComma_append {pre post : List Char}
    (hpre : ∀ c ∈ pre, c ≠ ',') :
    splitFirstComma (pre ++ ',' :: post) = some (pre, post) := by
  induction pre with
  | nil => simp [splitFirstComma]
  | cons c t ih =>
    rw [List.cons_append, splitFirstComma]
    rw [if_neg (hpre c (List.mem_cons_self c t))]
    rw [ih (fun x hx => hpre x (List.mem_cons_of_mem c hx))]

theorem pyStripL_cons_space (l : List Char) : pyStripL (' ' :: l) = pyStripL l := by
  unfold pyStripL
  rw [List.dropWhile_cons]
  norm_num [pyIsSpace]

theorem p1Tail_nozip {a b : Char} (hau : a.isUpper = true) (hbu : b.isUpper = true) :
    p1Tail [' ', a, b] = some (String.mk [a, b], none) := by
  unfold p1Tail
  have hsp : pyIsSpace ' ' = true := by decide
  have hans : pyIsSpace a = false := space_false_of_isAlpha (isAlpha_of_isUpper hau)
  rw [List.dropWhile_cons, hsp]
  simp only [if_true]
  rw [List.dropWhile_cons, hans]
  simp only [Bool.false_eq_true, if_false]
  rw [isAlpha_of_isUpper hau, isAlpha_of_isUpper hbu]
  simp only [Bool.and_self, if_true]
  rw [show atEnd ([] : List Char) = true from rfl]
  simp only [if_true]
  rw [toUpper_of_isUpper hau, toUpper_of_isUpper hbu]

theorem p1Tail_zip {a b d1 d2 d3 d4 d5 : Char}
    (hau : a.isUpper = true) (hbu : b.isUpper = true)
    (h1 : d1.isDigit = true) (h2 : d2.isDigit = true) (h3 : d3.isDigit = true)
    (h4 : d4.isDigit = true) (h5 : d5.isDigit = true) :
    p1Tail [' ', a, b, ' ', d1, d2, d3, d4, d5] =
      some (String.mk [a, b], some (String.mk [d1, d2, d3, d4, d5])) := by
  unfold p1Tail
  have hsp : pyIsSpace ' ' = true := by decide
  have hans : pyIsSpace a = false := space_false_of_isAlpha (isAlpha_of_isUpper hau)
  rw [List.dropWhile_cons, hsp]
  simp only [if_true]
  rw [List.dropWhile_cons, hans]
  simp only [Bool.false_eq_true, if_false]
  rw [isAlpha_of_isUpper hau, isAlpha_of_isUpper hbu]
  simp only [Bool.and_self, if_true]
  have hae : atEnd [' ', d1, d2, d3, d4, d5] = false := by
    unfold atEnd
    simp
  rw [hae]
  simp only [Bool.false_eq_true, if_false]
  have htw : List.takeWhile pyIsSpace [' ', d1, d2, d3, d4, d5] = [' '] := by
    rw [List.takeWhile_cons, hsp]
    simp only [if_true]
    rw [List.takeWhile_cons, space_false_of_isDigit h1]
    simp
  rw [htw]
  simp only [List.isEmpty_cons, Bool.false_eq_true, if_false]
  have hdw : List.dropWhile pyIsSpace [' ', d1, d2, d3, d4, d5] = [d1, d2, d3, d4, d5] := by
    rw [List.dropWhile_cons, hsp]
    simp only [if_true]
    rw [List.dropWhile_cons, space_false_of_isDigit h1]
    simp
  rw [hdw]
  simp only [zipAtEnd]
  rw [h1, h2, h3, h4, h5]
  simp only [Bool.and_self, if_true]
  rw [show atEnd ([] : List Char) = true from rfl]
  simp only [if_true]
  rw [toUpper_of_isUpper hau, toUpper_of_isUpper hbu]


theorem p1Find_structured (streetL cityL tail2 : List Char) {st : String}
    {zp : Option String}
    (hs1 : streetL ≠ []) (hs3 : ∀ c ∈ streetL, c ≠ ',')
    (hs4 : ∀ c ∈ streetL, c ≠ '\n') (hc3 : ∀ c ∈ cityL, c ≠ ',')
    (htail : p1Tail tail2 = some (st, zp)) :
    p1Find [] (streetL ++ ',' :: ((' ' :: cityL) ++ ',' :: tail2)) =
      some ⟨some (String.mk (pyStripL streetL)),
            some (String.mk (pyStripL (' ' :: cityL))), some st, zp⟩ := by
  rw [p1Find_append_no_comma hs3]
  simp only [List.nil_append]
  rw [p1Find]
  rw [if_pos rfl]
  have hcond : (!streetL.isEmpty && streetL.all (· != '\n')) = true := by
    simp only [Bool.and_eq_true, Bool.not_eq_true', List.all_eq_true]
    constructor
    · simpa [List.isEmpty_iff] using hs1
    · intro c hc
      simpa using hs4 c hc
  rw [hcond]
  simp only [if_true]
  have hac : p1AfterComma ((' ' :: cityL) ++ ',' :: tail2) =
      some (String.mk (pyStripL (' ' :: cityL)), st, zp) := by
    have hsplit : splitFirstComma ((' ' :: cityL) ++ ',' :: tail2) =
        some (' ' :: cityL, tail2) := by
      apply splitFirstComma_append
      intro c hc
      rcases List.mem_cons.mp hc with rfl | hmem
      · decide
      · exact hc3 c hmem
    simp only [p1AfterComma]
    rw [hsplit]
    simp only [List.isEmpty_cons, Bool.false_eq_true, if_false]
    rw [htail]
  rw [hac]

/-- C8: for every address assembled as `"Street, City, ST ZIP"` or
`"Street, City, ST"` — street and city trimmed, non-empty, comma-free (and
the street newline-free), the state a 2-letter upper-case code, the ZIP five
digits when present — `parse_full_address` recovers the exact street, city,
state and zip components. -/
theorem parse_full_address_pattern1_exact
    (street city : String) (a b : Char)
    (hs1 : street ≠ "") (hs2 : pyStripL street.toList = street.toList)
    (hs3 : ∀ c ∈ street.toList, c ≠ ',') (hs4 : ∀ c ∈ street.toList, c ≠ '\n')
    (_hc1 : city ≠ "") (hc2 : pyStripL city.toList = city.toList)
    (hc3 : ∀ c ∈ city.toList, c ≠ ',')
    (hau : a.isUpper = true) (hbu : b.isUpper = true) :
    (parse_full_address (some (street ++ ", " ++ city ++ ", " ++ String.mk [a, b])) =
      ⟨some street, some city, some (String.mk [a, b]), none⟩) ∧
    (∀ d1 d2 d3 d4 d5 : Char, d1.isDigit = true → d2.isDigit = true →
      d3.isDigit = true → d4.isDigit = true → d5.isDigit = true →
      parse_full_address (some (street ++ ", " ++ city ++ ", " ++ String.mk [a, b] ++
          " " ++ String.mk [d1, d2, d3, d4, d5])) =
        ⟨some street, some city, some (String.mk [a, b]),
         some (String.mk [d1, d2, d3, d4, d5])⟩) := by
  have hstne : street.toList ≠ [] := by
    intro hh
    exact hs1 (by simpa using congrArg String.mk hh)
  obtain ⟨c0, t0, hc0⟩ := List.exists_cons_of_ne_nil hstne
  have hc0ns : pyIsSpace c0 = false := by
    apply strip_self_head_nonspace (t := t0)
    rw [← hc0]
    exact hs2
  have main : ∀ (tail2 : List Char) (st : String) (zp : Option String) (lastc : Char),
      p1Tail tail2 = some (st, zp) →
      tail2.getLast? = some lastc → pyIsSpace lastc = false →
      parse_full_address (some (String.mk
          (street.toList ++ ',' :: ((' ' :: city.toList) ++ ',' :: tail2)))) =
        ⟨some street, some city, some st, zp⟩ := by
    intro tail2 st zp lastc htail hlast hlastns
    have hL : (String.mk (street.toList ++ ',' :: ((' ' :: city.toList) ++ ',' :: tail2))).toList
        = street.toList ++ ',' :: ((' ' :: city.toList) ++ ',' :: tail2) := rfl
    have htail2ne : tail2 ≠ [] := by
      intro hh
      rw [hh] at hlast
      cases hlast
    have hstrip : pyStripL (street.toList ++ ',' :: ((' ' :: city.toList) ++ ',' :: tail2))
        = street.toList ++ ',' :: ((' ' :: city.toList) ++ ',' :: tail2) := by
      apply pyStripL_id_of_ends
      · simp [hc0]
      · intro c hcat
        rw [hc0] at hcat
        simp only [List.cons_append, List.head?_cons, Option.some.injEq] at hcat
        rw [← hcat]
        exact hc0ns
      · intro c hcat
        rw [List.getLast?_append_of_ne_nil _ (by simp)] at hcat
        rw [show (',' :: ((' ' :: city.toList) ++ ',' :: tail2)) =
            (',' :: (' ' :: city.toList) ++ ',' :: tail2) from by simp] at hcat
        rw [List.getLast?_append_of_ne_nil _ (by simp)] at hcat
        rw [show (',' :: tail2) = [','] ++ tail2 from rfl] at hcat
        rw [List.getLast?_append_of_ne_nil _ htail2ne] at hcat
        rw [hlast] at hcat
        rw [← Option.some.inj hcat]
        exact hlastns
    simp only [parse_full_address]
    rw [hL, hstrip]
    have hguard : (decide (String.mk (street.toList ++ ',' ::
        ((' ' :: city.toList) ++ ',' :: tail2)) = "") ||
        (street.toList ++ ',' :: ((' ' :: city.toList) ++ ',' :: tail2)).isEmpty) = false := by
      rw [decide_eq_false]
      · rw [hc0]
        simp
      · intro hh
        have := (mk_eq_empty_iff _).mp hh
        rw [hc0] at this
        cases this
    rw [hguard]
    simp only [Bool.false_eq_true, if_false]
    rw [p1Find_structured street.toList city.toList tail2 hstne hs3 hs4 hc3 htail]
    rw [pyStripL_cons_space, hs2, hc2]
    rfl
  constructor
  · have heq : street ++ ", " ++ city ++ ", " ++ String.mk [a, b] =
        String.mk (street.toList ++ ',' :: ((' ' :: city.toList) ++ ',' :: [' ', a, b])) := by
      apply String.ext
      simp [String.data_append]
    rw [heq]
    exact main [' ', a, b] (String.mk [a, b]) none b (p1Tail_nozip hau hbu) rfl
      (space_false_of_isAlpha (isAlpha_of_isUpper hbu))
  · intro d1 d2 d3 d4 d5 h1 h2 h3 h4 h5
    have heq : street ++ ", " ++ city ++ ", " ++ String.mk [a, b] ++ " " ++
        String.mk [d1, d2, d3, d4, d5] =
        String.mk (street.toList ++ ',' ::
          ((' ' :: city.toList) ++ ',' :: [' ', a, b, ' ', d1, d2, d3, d4, d5])) := by
      apply String.ext
      simp [String.data_append]
    rw [heq]
    exact main [' ', a, b, ' ', d1, d2, d3, d4, d5] (String.mk [a, b])
      (some (String.mk [d1, d2, d3, d4, d5])) d5
      (p1Tail_zip hau hbu h1 h2 h3 h4 h5) rfl (space_false_of_isDigit h5)

/-- Witness for C8 at the specification's example
`"123 Main St, Springfield, IL 62701"`. -/
theorem parse_full_address_pattern1_exact_witness :
    parse_full_address (some ("123 Main St" ++ ", " ++ "Springfield" ++ ", " ++
        String.mk ['I', 'L'] ++ " " ++ String.mk ['6', '2', '7', '0', '1'])) =
      ⟨some "123 Main St", some "Springfield", some (String.mk ['I', 'L']),
       some (String.mk ['6', '2', '7', '0', '1'])⟩ :=
  (parse_full_address_pattern1_exact "123 Main St" "Springfield" 'I' 'L'
    (by decide) (by decide) (by decide) (by decide) (by decide) (by decide)
    (by decide) (by decide) (by decide)).2 '6' '2' '7' '0' '1'
    (by decide) (by decide) (by decide) (by decide) (by decide)

/-! ## C2: strategy chain of the field extractor -/

/-- A document whose CSS probe yields the sentinel `"n/a"`, whose XPath
probe yields nothing, and whose label-search probe would yield a valid
value. -/
def c2CexOutputs : StrategyOutputs := ⟨some "n/a", none, ["500000"], []⟩

/-- C2 counterexample: with the first strategy producing only the sentinel
`"n/a"` and the third strategy holding the valid value `"500000"`, the
claim predicts the extractor returns `"500000"`; the code returns nothing —
a non-empty sentinel halts the chain (`if not value`) and is then dropped
by the final cleanup. -/
theorem fieldValue_sentinel_blocks_cex :
    validStrategyValue "n/a" = false ∧
    validStrategyValue "500000" = true ∧
    cleanupValue "estimated_value" "500000" = some "500000" ∧
    fieldValue "estimated_value" c2CexOutputs = none := by
  refine ⟨by decide, by decide, by decide, by decide⟩

theorem assignScan_finds {labels : List String} {v : String} (cur : Option String)
    (h : labels.find? validStrategyValue = some v) :
    assignScan cur labels = some v := by
  induction labels generalizing cur with
  | nil => cases h
  | cons t ts ih =>
    by_cases hp : validStrategyValue t = true
    · simp only [List.find?_cons, hp, if_true] at h
      rw [← Option.some.inj h]
      simp [assignScan, hp]
    · rw [Bool.not_eq_true] at hp
      simp only [List.find?_cons, hp, Bool.false_eq_true, if_false] at h
      simp only [assignScan, hp, Bool.false_eq_true, if_false]
      exact ih _ h

/-- C2 (amended): a later strategy runs only when every earlier one produced
no output at all (`None` or the empty string); any non-empty earlier output
— valid or sentinel — halts the chain, the sentinel being dropped only in
the final cleanup.  In particular, when methods one and two produce no
output and the third (label-search) strategy's candidates contain a valid
value, `extract` returns the first such value passed through the field's
cleanup rule. -/
theorem fieldValue_third_strategy (field : String) (o : StrategyOutputs)
    (v : String)
    (hcss : o.css = none ∨ o.css = some "")
    (hxp : o.xpath = none ∨ o.xpath = some "")
    (hv : o.labels.find? validStrategyValue = some v) :
    fieldValue field o = cleanupValue field v := by
  have hv1 : truthyOpt o.css = false := by
    rcases hcss with h | h <;> simp [h, truthyOpt]
  have hv2 : truthyOpt o.xpath = false := by
    rcases hxp with h | h <;> simp [h, truthyOpt]
  have hvv : validStrategyValue v = true := List.find?_some hv
  have hvne : v ≠ "" := by
    intro hh
    rw [hh] at hvv
    exact absurd hvv (by decide)
  simp only [fieldValue, hv1, hv2, Bool.false_eq_true, if_false,
    assignScan_finds o.xpath hv]
  simp [truthyOpt, hvne]

/-- Witness for C2 (amended): strategies one and two falsy, strategy three
holding a sentinel followed by a valid value. -/
theorem fieldValue_third_strategy_witness :
    fieldValue "estimated_value" ⟨none, some "", ["n/a", "500000"], []⟩ =
      cleanupValue "estimated_value" "500000" :=
  fieldValue_third_strategy "estimated_value" ⟨none, some "", ["n/a", "500000"], []⟩
    "500000" (Or.inl rfl) (Or.inr rfl) (by decide)

/-! ## C4: retry behaviour of the fetch loop -/

/-- A world whose direct navigation always returns HTTP 404 from the target
domain, with the proxy route failing. -/
def c4World : FetchWorld :=
  ⟨false, fun _ => .resp 404 "https://www.truepeoplesearch.com/x"⟩

/-- C4 counterexample: a 404 response is *not* terminal — after a 404 on
attempt 0 the loop performs a second direct navigation (2 `page.goto` calls
in total), and the final-attempt 404 is even accepted as `fetch_success`.
This refutes "no further attempt for that work item". -/
theorem fetch_404_retried_cex :
    (fetchLoop c4World).2 = 2 ∧ (fetchLoop c4World).1 = true := by
  constructor <;> rfl

/-- C4 (amended): the loop retries on *every* HTTP status ≥ 400 — not just
the soft-block set — while attempts remain (here: a ≥ 400 first response
forces a second direct attempt), and on the final attempt any received
response, whatever its status, sets `fetch_success`.  Retries likewise
occur on missing responses, navigation exceptions, and challenge
redirects. -/
theorem fetchLoop_retries_on_http_error (w : FetchWorld) (s : Nat) (u : String)
    (hp : w.proxyOk = false)
    (h0 : w.goto 0 = .resp s u)
    (hs : 400 ≤ s) :
    (fetchLoop w).2 = 2 ∧
    (∀ s2 u2, w.goto 1 = .resp s2 u2 → fetchLoop w = (true, 2)) := by
  have hstep : fetchLoop w = fetchGo w 1 1 1 := by
    simp only [fetchLoop, max_retries, fetchGo, USE_AWS_ROTATION, hp, h0]
    simp [hs]
  constructor
  · rw [hstep]
    simp only [fetchGo, USE_AWS_ROTATION]
    cases hg1 : w.goto 1 with
    | resp s2 u2 => simp
    | noResponse => simp
    | exn => simp
  · intro s2 u2 hg1
    rw [hstep]
    simp only [fetchGo, USE_AWS_ROTATION, hg1]
    simp

/-- Witness for C4 (amended) at the all-404 world. -/
theorem fetchLoop_retries_on_http_error_witness :
    (fetchLoop c4World).2 = 2 ∧ fetchLoop c4World = (true, 2) := by
  have h := fetchLoop_retries_on_http_error c4World 404
    "https://www.truepeoplesearch.com/x" rfl rfl (by decide)
  exact ⟨h.1, h.2 404 "https://www.truepeoplesearch.com/x" rfl⟩

/-! ## C5: exactly one counter per item -/

theorem enrich_lead_task_stats (lead : StrMap) (w : TaskWorld) (stats : Stats) :
    (enrich_lead_task lead w stats).1 = { stats with enriched := stats.enriched + 1 } ∨
    (enrich_lead_task lead w stats).1 = { stats with failed := stats.failed + 1 } ∨
    (enrich_lead_task lead w stats).1 = { stats with skipped := stats.skipped + 1 } := by
  unfold enrich_lead_task
  split
  · right; right; rfl
  · split
    · right; right; rfl
    · split
      · right; left; rfl
      · split
        · right; left; rfl
        · split
          · right; left; rfl
          · by_cases hx : (extract_all w.doc).isEmpty
            · right; left
              simp [hx]
            · left
              simp [hx]

theorem uploadPhase_counts (pdParse : String → Option String)
    (pyFloat : String → Option DBValue) (nowDate nowIso : String) :
    ∀ (leads : List StrMap) (stats : Stats) (store : Store),
      (uploadPhase pdParse pyFloat nowDate nowIso leads stats store).1.enriched =
          stats.enriched ∧
      (uploadPhase pdParse pyFloat nowDate nowIso leads stats store).1.failed =
          stats.failed ∧
      (uploadPhase pdParse pyFloat nowDate nowIso leads stats store).1.skipped =
          stats.skipped := by
  intro leads
  induction leads with
  | nil => intro stats store; simp [uploadPhase]
  | cons lead rest ih =>
    intro stats store
    rw [uploadPhase]
    rcases hok : (save_lead_to_supabase pdParse pyFloat nowDate nowIso store lead).2 with _ | _
    · simpa [hok] using ih _ _
    · simpa [hok] using ih _ _

theorem enrichPhase_sum (worldOf : Nat → TaskWorld) :
    ∀ (leads : List StrMap) (i : Nat) (stats : Stats) (acc : List StrMap),
      (enrichPhase worldOf i leads stats acc).1.enriched +
        (enrichPhase worldOf i leads stats acc).1.failed +
        (enrichPhase worldOf i leads stats acc).1.skipped =
      stats.enriched + stats.failed + stats.skipped + leads.length := by
  intro leads
  induction leads with
  | nil => intro i stats acc; simp [enrichPhase]
  | cons lead rest ih =>
    intro i stats acc
    rw [enrichPhase]
    rcases enrich_lead_task_stats lead (worldOf i) stats with h | h | h <;>
      rw [ih] <;> rw [h] <;> simp <;> omega

/-- C5: every work item increments exactly one of the counters
`enriched`/`failed`/`skipped` exactly once, whatever path it takes (missing
address components, URL-build `ValueError`, off-domain URL, unexpected
exception, fetch exhaustion, or the extraction decision); consequently a
full pipeline run over any lead list ends with
`enriched + failed + skipped = number of items`. -/
theorem pipeline_counts_exactly_one :
    (∀ (lead : StrMap) (w : TaskWorld) (stats : Stats),
      (enrich_lead_task lead w stats).1 =
          { stats with enriched := stats.enriched + 1 } ∨
      (enrich_lead_task lead w stats).1 =
          { stats with failed := stats.failed + 1 } ∨
      (enrich_lead_task lead w stats).1 =
          { stats with skipped := stats.skipped + 1 }) ∧
    (∀ (leads : List StrMap) (worldOf : Nat → TaskWorld)
        (pdParse : String → Option String) (pyFloat : String → Option DBValue)
        (nowDate nowIso : String) (store : Store),
      (run_enrichment_pipeline leads worldOf pdParse pyFloat nowDate nowIso
          store).1.enriched +
        (run_enrichment_pipeline leads worldOf pdParse pyFloat nowDate nowIso
          store).1.failed +
        (run_enrichment_pipeline leads worldOf pdParse pyFloat nowDate nowIso
          store).1.skipped = leads.length) := by
  constructor
  · exact enrich_lead_task_stats
  · intro leads worldOf pdParse pyFloat nowDate nowIso store
    unfold run_enrichment_pipeline
    have hsum := enrichPhase_sum worldOf leads 0 ⟨0, 0, 0, 0⟩ []
    by_cases he : (enrichPhase worldOf 0 leads ⟨0, 0, 0, 0⟩ []).2.isEmpty
    · simp only [he, if_true]
      simpa using hsum
    · simp only [he, Bool.false_eq_true, if_false]
      obtain ⟨h1, h2, h3⟩ := uploadPhase_counts pdParse pyFloat nowDate nowIso
        (enrichPhase worldOf 0 leads ⟨0, 0, 0, 0⟩ []).2
        (enrichPhase worldOf 0 leads ⟨0, 0, 0, 0⟩ []).1 store
      rw [h1, h2, h3]
      simpa using hsum

/-! ## C3: idempotence of merge+upsert -/

def NodupKeys {β : Type} (l : List (String × β)) : Prop :=
  (l.map Prod.fst).Nodup

theorem agetV_cons {β : Type} (e : String × β) (t : List (String × β)) (k : String) :
    agetV (e :: t) k = if e.1 == k then some e.2 else agetV t k := by
  by_cases h : e.1 == k
  · simp [agetV, List.find?_cons, h]
  · simp only [Bool.not_eq_true] at h
    simp [agetV, List.find?_cons, h]

theorem agetV_asetV_self {β : Type} (l : List (String × β)) (k : String) (v : β) :
    agetV (asetV l k v) k = some v := by
  induction l with
  | nil => simp [asetV, agetV]
  | cons e t ih =>
    rw [asetV]
    by_cases h : e.1 == k
    · rw [if_pos h, agetV_cons]
      simp
    · rw [Bool.not_eq_true] at h
      rw [if_neg (by simp [h]), agetV_cons, h]
      simpa using ih

theorem agetV_asetV_ne {β : Type} {l : List (String × β)} {k k' : String} {v : β}
    (h : k ≠ k') : agetV (asetV l k' v) k = agetV l k := by
  have hk'k : ((k' : String) == k) = false := by
    simpa using fun hh => h hh.symm
  induction l with
  | nil => simp [asetV, agetV_cons, hk'k, agetV]
  | cons e t ih =>
    rw [asetV]
    by_cases he : e.1 == k'
    · rw [if_pos he]
      have hek : (e.1 == k) = false := by
        rw [beq_iff_eq.mp he]
        exact hk'k
      simp [agetV_cons, hk'k, hek]
    · rw [Bool.not_eq_true] at he
      rw [if_neg (by simp [he]), agetV_cons, agetV_cons, ih]

theorem asetV_self_eq {β : Type} {l : List (String × β)} {k : String} {v : β}
    (h : agetV l k = some v) : asetV l k v = l := by
  induction l with
  | nil => cases h
  | cons e t ih =>
    rw [agetV_cons] at h
    rw [asetV]
    by_cases he : e.1 == k
    · rw [if_pos he]
      rw [if_pos he] at h
      have h2 : e.2 = v := Option.some.inj h
      rw [← h2, ← beq_iff_eq.mp he]
    · rw [Bool.not_eq_true] at he
      rw [if_neg (by simp [he])]
      rw [if_neg (by simp [he])] at h
      rw [ih h]

theorem mem_keys_asetV {β : Type} {l : List (String × β)} {k k' : String} {v : β}
    (h : k' ∈ (asetV l k v).map Prod.fst) : k' ∈ l.map Prod.fst ∨ k' = k := by
  induction l with
  | nil =>
    right
    simpa [asetV] using h
  | cons e t ih =>
    rw [asetV] at h
    by_cases he : e.1 == k
    · rw [if_pos he] at h
      simp only [List.map_cons, List.mem_cons] at h
      rcases h with rfl | hmem
      · right; rfl
      · left; simp [hmem]
    · rw [Bool.not_eq_true] at he
      rw [if_neg (by simp [he])] at h
      simp only [List.map_cons, List.mem_cons] at h
      rcases h with rfl | hmem
      · left; simp
      · rcases ih hmem with h1 | h1
        · left; simp [h1]
        · right; exact h1

theorem asetV_nodup {β : Type} {l : List (String × β)} {k : String} {v : β}
    (h : NodupKeys l) : NodupKeys (asetV l k v) := by
  induction l with
  | nil => simp [NodupKeys, asetV]
  | cons e t ih =>
    rw [NodupKeys, asetV]
    by_cases he : e.1 == k
    · rw [if_pos he]
      simp only [List.map_cons, List.nodup_cons]
      rw [NodupKeys] at h
      simp only [List.map_cons, List.nodup_cons] at h
      rw [← beq_iff_eq.mp he]
      exact h
    · rw [Bool.not_eq_true] at he
      simp only [NodupKeys, List.map_cons, List.nodup_cons] at h
      rw [if_neg (by simp [he])]
      simp only [List.map_cons, List.nodup_cons]
      refine ⟨?_, ih h.2⟩
      intro hmem
      rcases mem_keys_asetV hmem with h1 | h1
      · exact h.1 h1
      · rw [h1] at he
        simp at he

theorem agetV_self_of_nodup {β : Type} {p : List (String × β)} (hnd : NodupKeys p) :
    ∀ kv ∈ p, agetV p kv.1 = some kv.2 := by
  induction p with
  | nil => intro kv hkv; cases hkv
  | cons e t ih =>
    intro kv hkv
    simp only [NodupKeys, List.map_cons, List.nodup_cons] at hnd
    rcases List.mem_cons.mp hkv with rfl | hmem
    · rw [agetV_cons]; simp
    · rw [agetV_cons]
      have hef : (e.1 == kv.1) = false := by
        simp only [beq_eq_false_iff_ne, ne_eq]
        intro hh
        apply hnd.1
        rw [hh]
        exact List.mem_map_of_mem Prod.fst hmem
      rw [hef]
      simpa using ih hnd.2 kv hmem

theorem foldl_asetV_not_mem {β : Type} {t : List (String × β)} {k : String} :
    ∀ (l' : List (String × β)), k ∉ t.map Prod.fst →
      agetV (t.foldl (fun acc e2 => asetV acc e2.1 e2.2) l') k = agetV l' k := by
  induction t with
  | nil => intro l' _; rfl
  | cons e2 t2 ih =>
    intro l' hn
    rw [List.foldl_cons]
    simp only [List.map_cons, List.mem_cons, not_or] at hn
    rw [ih _ hn.2]
    exact agetV_asetV_ne hn.1

theorem mergeRow_binds {new_ : DBRow} (hnd : NodupKeys new_) :
    ∀ (old : DBRow) (kv : String × DBValue), kv ∈ new_ →
      agetV (mergeRow old new_) kv.1 = some kv.2 := by
  induction new_ with
  | nil => intro old kv hkv; cases hkv
  | cons e t ih =>
    intro old kv hkv
    simp only [NodupKeys, List.map_cons, List.nodup_cons] at hnd
    simp only [mergeRow, List.foldl_cons]
    rcases List.mem_cons.mp hkv with rfl | hmem
    · rw [foldl_asetV_not_mem _ hnd.1]
      exact agetV_asetV_self _ _ _
    · exact ih hnd.2 _ kv hmem

theorem mergeRow_id_of_binds {new_ : DBRow} :
    ∀ (l : DBRow), (∀ kv ∈ new_, agetV l kv.1 = some kv.2) → mergeRow l new_ = l := by
  induction new_ with
  | nil => intro l _; rfl
  | cons e t ih =>
    intro l hb
    simp only [mergeRow, List.foldl_cons]
    rw [asetV_self_eq (hb e (List.mem_cons_self e t))]
    exact ih l (fun kv hkv => hb kv (List.mem_cons_of_mem e hkv))

theorem mergeRow_idem {old p : DBRow} (hnd : NodupKeys p) :
    mergeRow (mergeRow old p) p = mergeRow old p :=
  mergeRow_id_of_binds _ (fun kv hkv => mergeRow_binds hnd old kv hkv)

theorem upsertRow_idem {store : Store} {key : String} {p : DBRow}
    (hnd : NodupKeys p) :
    upsertRow (upsertRow store key p) key p = upsertRow store key p := by
  induction store with
  | nil =>
    simp only [upsertRow]
    rw [if_pos (by simp)]
    rw [mergeRow_id_of_binds p (agetV_self_of_nodup hnd)]
  | cons e t ih =>
    rcases e with ⟨k0, row⟩
    simp only [upsertRow]
    by_cases he : k0 == key
    · rw [if_pos he]
      simp only [upsertRow]
      rw [if_pos he, mergeRow_idem hnd]
    · rw [Bool.not_eq_true] at he
      rw [if_neg (by simp [he])]
      simp only [upsertRow]
      rw [if_neg (by simp [he]), ih]

theorem mem_keys_upsertRow {store : Store} {key k' : String} {p : DBRow}
    (h : k' ∈ (upsertRow store key p).map Prod.fst) :
    k' ∈ store.map Prod.fst ∨ k' = key := by
  induction store with
  | nil =>
    right
    simpa [upsertRow] using h
  | cons e t ih =>
    rcases e with ⟨k0, row⟩
    rw [upsertRow] at h
    by_cases he : k0 == key
    · rw [if_pos he] at h
      simp only [List.map_cons, List.mem_cons] at h
      rcases h with rfl | hmem
      · left; simp
      · left; simp [hmem]
    · rw [Bool.not_eq_true] at he
      rw [if_neg (by simp [he])] at h
      simp only [List.map_cons, List.mem_cons] at h
      rcases h with rfl | hmem
      · left; simp
      · rcases ih hmem with h1 | h1
        · left; simp [h1]
        · right; exact h1

theorem upsertRow_nodup {store : Store} {key : String} {p : DBRow}
    (h : NodupKeys store) : NodupKeys (upsertRow store key p) := by
  induction store with
  | nil => simp [NodupKeys, upsertRow]
  | cons e t ih =>
    rcases e with ⟨k0, row⟩
    simp only [NodupKeys, List.map_cons, List.nodup_cons] at h
    rw [NodupKeys, upsertRow]
    by_cases he : k0 == key
    · rw [if_pos he]
      simp only [List.map_cons, List.nodup_cons]
      exact h
    · rw [Bool.not_eq_true] at he
      rw [if_neg (by simp [he])]
      simp only [List.map_cons, List.nodup_cons]
      refine ⟨?_, ih h.2⟩
      intro hmem
      rcases mem_keys_upsertRow hmem with h1 | h1
      · exact h.1 h1
      · rw [h1] at he
        simp at he

theorem foldl_step_preserves {α β : Type} {P : β → Prop} (step : β → α → β) :
    ∀ (cols : List α), (∀ p a, a ∈ cols → P p → P (step p a)) →
      ∀ p, P p → P (cols.foldl step p) := by
  intro cols
  induction cols with
  | nil => intro _ p hp; exact hp
  | cons c t ih =>
    intro hstep p hp
    rw [List.foldl_cons]
    exact ih (fun p2 a ha hp2 => hstep p2 a (List.mem_cons_of_mem c ha) hp2) _
      (hstep p c (List.mem_cons_self c t) hp)

theorem convertCol_nodup {p : Payload} {col : String}
    {f : String → Option DBValue} (h : NodupKeys p) :
    NodupKeys (convertCol p col f) := by
  unfold convertCol
  split
  · split
    · exact asetV_nodup h
    · exact h
  · exact h

theorem validateTimestampCol_nodup {pdParse : String → Option String}
    {p : Payload} {field : String} (h : NodupKeys p) :
    NodupKeys (validateTimestampCol pdParse p field) := by
  unfold validateTimestampCol
  split
  · split
    · split
      · exact asetV_nodup h
      · split
        · exact asetV_nodup h
        · split
          · exact asetV_nodup h
          · exact asetV_nodup h
    · exact h
  · exact h

theorem basePayload_nodup (lead : StrMap) : NodupKeys (basePayload lead) := by
  unfold NodupKeys basePayload
  rw [List.map_map]
  show (FIELD_MAPPINGS.map (fun e => e.1)).Nodup
  decide

theorem filterMap_keys_sublist (p : Payload) :
    ((p.filterMap (fun e => e.2.map (fun v => (e.1, v)))).map Prod.fst).Sublist
      (p.map Prod.fst) := by
  induction p with
  | nil => simp
  | cons e t ih =>
    rcases e with ⟨k, v⟩
    cases v with
    | none =>
      simp only [List.filterMap_cons, Option.map_none', List.map_cons]
      exact ih.cons _
    | some w =>
      simp only [List.filterMap_cons, Option.map_some', List.map_cons]
      exact ih.cons₂ _

theorem buildPayload_nodup (pdParse : String → Option String)
    (pyFloat : String → Option DBValue) (nowDate nowIso : String)
    (lead : StrMap) :
    NodupKeys (buildPayload pdParse pyFloat nowDate nowIso lead) := by
  have h0 : NodupKeys (basePayload lead) := basePayload_nodup lead
  have h3 : NodupKeys (applyTypeConversions pyFloat (basePayload lead)) := by
    unfold applyTypeConversions
    apply foldl_step_preserves _ _ (fun p a _ hp => convertCol_nodup hp)
    apply foldl_step_preserves _ _ (fun p a _ hp => convertCol_nodup hp)
    apply foldl_step_preserves _ _ (fun p a _ hp => convertCol_nodup hp)
    exact h0
  have h4 : NodupKeys (applyTimestampValidation pdParse
      (applyTypeConversions pyFloat (basePayload lead))) := by
    unfold applyTimestampValidation
    exact foldl_step_preserves _ _
      (fun p a _ hp => validateTimestampCol_nodup hp) _ h3
  have h9 : NodupKeys (addBookkeeping nowDate nowIso lead
      (applyTimestampValidation pdParse
        (applyTypeConversions pyFloat (basePayload lead)))) := by
    unfold addBookkeeping
    exact asetV_nodup (asetV_nodup (asetV_nodup (asetV_nodup (asetV_nodup h4))))
  unfold buildPayload NodupKeys
  exact (filterMap_keys_sublist _).nodup h9


theorem pget_eq_join (p : Payload) (k : String) :
    pget p k = (agetV p k).join := rfl

theorem pget_cons (e : String × Option DBValue) (t : Payload) (k : String) :
    pget (e :: t) k = if e.1 == k then e.2 else pget t k := by
  rw [pget_eq_join, agetV_cons]
  by_cases h : e.1 == k
  · rw [if_pos h, if_pos h]
    rfl
  · rw [Bool.not_eq_true] at h
    rw [if_neg (by simp [h]), if_neg (by simp [h])]
    rfl

theorem pget_pset_ne {p : Payload} {k k' : String} {v : Option DBValue}
    (h : k ≠ k') : pget (pset p k' v) k = pget p k := by
  rw [pget_eq_join, pget_eq_join]
  unfold pset
  rw [agetV_asetV_ne h]

theorem pget_convertCol_ne {p : Payload} {col : String}
    {f : String → Option DBValue} {k : String} (h : k ≠ col) :
    pget (convertCol p col f) k = pget p k := by
  unfold convertCol
  split
  · split
    · exact pget_pset_ne h
    · rfl
  · rfl

theorem pget_validateTimestampCol_ne {pdParse : String → Option String}
    {p : Payload} {field k : String} (h : k ≠ field) :
    pget (validateTimestampCol pdParse p field) k = pget p k := by
  unfold validateTimestampCol
  split
  · split
    · split
      · exact pget_pset_ne h
      · split
        · exact pget_pset_ne h
        · split
          · exact pget_pset_ne h
          · exact pget_pset_ne h
    · rfl
  · rfl

theorem any_key_of_pget {p : Payload} {k : String} {v : DBValue}
    (h : pget p k = some v) :
    (p.filterMap (fun e => e.2.map (fun w => (e.1, w)))).any
      (fun e => e.1 == k) = true := by
  induction p with
  | nil => cases h
  | cons e t ih =>
    rw [pget_cons] at h
    rcases e with ⟨k0, v0⟩
    by_cases he : k0 == k
    · rw [if_pos he] at h
      simp only at h
      subst h
      simp [List.filterMap_cons, he]
    · rw [Bool.not_eq_true] at he
      rw [if_neg (by simp [he])] at h
      cases v0 with
      | none =>
        simp only [List.filterMap_cons, Option.map_none']
        exact ih h
      | some w =>
        simp only [List.filterMap_cons, Option.map_some', List.any_cons]
        rw [ih h]
        simp



theorem buildPayload_has_url (pdParse : String → Option String)
    (pyFloat : String → Option DBValue) (nowDate nowIso : String)
    (lead : StrMap) (u : String)
    (hu : agetV lead "property_url" = some u) (hne : u ≠ "") :
    (buildPayload pdParse pyFloat nowDate nowIso lead).any
      (fun e => e.1 == "property_url") = true := by
  have h0 : pget (basePayload lead) "property_url" =
      some (DBValue.s u) := by
    unfold basePayload
    rw [FIELD_MAPPINGS]
    simp only [List.map_cons]
    rw [pget_cons, if_neg (by simp), pget_cons, if_pos (by simp)]
    simp only
    unfold get_field_value
    rw [hu]
    simp [hne]
  have h3 : pget (applyTypeConversions pyFloat (basePayload lead))
      "property_url" = some (DBValue.s u) := by
    unfold applyTypeConversions
    have hp : ∀ cols : List String, (∀ a ∈ cols, ("property_url" : String) ≠ a) →
        ∀ (p : Payload) (f : String → String → Option DBValue),
        pget p "property_url" = some (DBValue.s u) →
        pget (cols.foldl (fun p2 col => convertCol p2 col (f col)) p)
          "property_url" = some (DBValue.s u) := by
      intro cols hcols
      induction cols with
      | nil => intro p f hpp; exact hpp
      | cons c t ih =>
        intro p f hpp
        rw [List.foldl_cons]
        exact ih (fun a ha => hcols a (List.mem_cons_of_mem c ha)) _ f
          (by rw [pget_convertCol_ne (hcols c (List.mem_cons_self c t))]; exact hpp)
    exact hp float_cols (by decide) _ _
      (hp int_cols (by decide) _ _
        (hp price_cols (by decide) _ _ h0))
  have h4 : pget (applyTimestampValidation pdParse
      (applyTypeConversions pyFloat (basePayload lead)))
      "property_url" = some (DBValue.s u) := by
    unfold applyTimestampValidation
    have hp : ∀ cols : List String, (∀ a ∈ cols, ("property_url" : String) ≠ a) →
        ∀ (p : Payload),
        pget p "property_url" = some (DBValue.s u) →
        pget (cols.foldl (validateTimestampCol pdParse) p)
          "property_url" = some (DBValue.s u) := by
      intro cols hcols
      induction cols with
      | nil => intro p hpp; exact hpp
      | cons c t ih =>
        intro p hpp
        rw [List.foldl_cons]
        exact ih (fun a ha => hcols a (List.mem_cons_of_mem c ha)) _
          (by rw [pget_validateTimestampCol_ne
            (hcols c (List.mem_cons_self c t))]; exact hpp)
    exact hp timestamp_fields (by decide) _ h3
  have h9 : pget (addBookkeeping nowDate nowIso lead
      (applyTimestampValidation pdParse
        (applyTypeConversions pyFloat (basePayload lead))))
      "property_url" = some (DBValue.s u) := by
    unfold addBookkeeping
    rw [pget_pset_ne (by decide), pget_pset_ne (by decide),
      pget_pset_ne (by decide), pget_pset_ne (by decide),
      pget_pset_ne (by decide)]
    exact h4
  unfold buildPayload
  exact any_key_of_pget h9

theorem save_lead_eq_upsert (pdParse : String → Option String)
    (pyFloat : String → Option DBValue) (nowDate nowIso : String)
    (lead : StrMap) (u : String)
    (hu : agetV lead "property_url" = some u) (hne : u ≠ "") :
    ∀ s : Store, save_lead_to_supabase pdParse pyFloat nowDate nowIso
      s lead = (upsertRow s u (buildPayload pdParse pyFloat nowDate nowIso lead),
        true) := by
  have hlead : lead.isEmpty = false := by
    cases lead with
    | nil => cases hu
    | cons e t => rfl
  have hget : ((agetV lead "property_url").getD "" == "") = false := by
    rw [hu]
    simpa using hne
  intro s
  unfold save_lead_to_supabase
  rw [hlead, hget]
  simp only [Bool.or_self, Bool.false_eq_true, if_false]
  rw [buildPayload_has_url pdParse pyFloat nowDate nowIso lead u hu hne]
  simp only [Bool.not_true, Bool.false_eq_true, if_false]
  rw [hu]
  rfl

/-- C3: merge+upsert is idempotent for every lead with a non-empty
`property_url` natural key — with the clock reading and the external parsers
part of the (identical) input, applying `save_lead_to_supabase` twice leaves
the store exactly as after the first application, the save succeeds, and no
duplicate rows appear (a duplicate-free store stays duplicate-free). -/
theorem save_lead_idem (pdParse : String → Option String)
    (pyFloat : String → Option DBValue) (nowDate nowIso : String)
    (store : Store) (lead : StrMap) (u : String)
    (hu : agetV lead "property_url" = some u) (hne : u ≠ "") :
    save_lead_to_supabase pdParse pyFloat nowDate nowIso
        (save_lead_to_supabase pdParse pyFloat nowDate nowIso store lead).1 lead =
      save_lead_to_supabase pdParse pyFloat nowDate nowIso store lead ∧
    (save_lead_to_supabase pdParse pyFloat nowDate nowIso store lead).2 = true ∧
    (NodupKeys store →
      NodupKeys (save_lead_to_supabase pdParse pyFloat nowDate nowIso
        store lead).1) := by
  have hone := save_lead_eq_upsert pdParse pyFloat nowDate nowIso lead u hu hne
  refine ⟨?_, ?_, ?_⟩
  · simp only [hone]
    rw [upsertRow_idem (buildPayload_nodup pdParse pyFloat nowDate nowIso lead)]
  · simp only [hone]
  · intro hs
    simp only [hone]
    exact upsertRow_nodup hs

/-- Witness for C3 on a one-column lead against the empty store. -/
theorem save_lead_idem_witness :
    save_lead_to_supabase (fun _ => none) (fun _ => none) "2026-10-12" "T"
        (save_lead_to_supabase (fun _ => none) (fun _ => none) "2026-10-12" "T"
          [] [("property_url", "https://example.com/1")]).1
        [("property_url", "https://example.com/1")] =
      save_lead_to_supabase (fun _ => none) (fun _ => none) "2026-10-12" "T"
        [] [("property_url", "https://example.com/1")] :=
  (save_lead_idem (fun _ => none) (fun _ => none) "2026-10-12" "T" []
    [("property_url", "https://example.com/1")] "https://example.com/1"
    rfl (by decide)).1

/-! ## C1: blocked documents, failure counting, and persistence -/

/-- A work item carrying only a combined address string (no separate
city/state columns) and a `property_url`. -/
def c1Lead : StrMap :=
  [("property_url", "https://redfin.example/home/1"),
   ("address", "123 Main St, Springfield, IL 62701")]

/-- A fetched page carrying block indicators (`access denied`, `captcha`). -/
def c1Doc : Document :=
  { rawEmpty := false
    pageText := "Access Denied - please complete the captcha"
    residentData := []
    hasPropertyCard := false
    fieldOutputs := fun _ => ⟨none, none, [], []⟩ }

/-- A world whose AWS-proxy fetch succeeds on the first attempt and whose
fetched document is the blocked page `c1Doc`. -/
def c1World : TaskWorld :=
  { fetch :=
      { proxyOk := true
        goto := fun _ => GotoResult.resp 200
          "https://www.truepeoplesearch.com/resultaddress" }
    doc := c1Doc
    raiseUnexpected := false }

/-- C1 counterexample: for the single work item `c1Lead` whose fetch returns
the block-indicator page `c1Doc`, the extractor does return the empty field
set and the item is counted as failed — yet a record for the item IS
upserted to the persistent store during the run: `run_enrichment_pipeline`
offers every returned record (failed ones included) to
`save_lead_to_supabase`, so `saved_to_db` ends at 1 and the item's
`property_url` row appears in the final store, refuting the claim's
"no record for that item is upserted". -/
theorem blocked_doc_still_upserted_cex :
    extract_all c1Doc = [] ∧
    (run_enrichment_pipeline [c1Lead] (fun _ => c1World) (fun _ => none)
        (fun _ => none) "2026-10-12" "2026-10-12T00:00:00" []).1 =
      ⟨0, 1, 0, 1⟩ ∧
    ((run_enrichment_pipeline [c1Lead] (fun _ => c1World) (fun _ => none)
        (fun _ => none) "2026-10-12" "2026-10-12T00:00:00" []).2.2).map
      (fun r => r.1) = ["https://redfin.example/home/1"] := by
  refine ⟨by decide, by decide, by decide⟩

/-- C1 (amended): for every work item whose resolved address passes the
mandatory-component check, whose TruePeopleSearch URL builds on-domain,
whose fetch succeeds, and whose fetched document contains a block
indicator, the extractor returns the empty field set and the item is
counted as failed — but the item's returned record is still upserted to the
store whenever it carries a non-empty `property_url`: the single-item run
ends with stats `{enriched 0, failed 1, skipped 0, saved_to_db 1}` and the
store updated with the item's payload. -/
theorem blocked_item_failed_but_upserted
    (pdParse : String → Option String) (pyFloat : String → Option DBValue)
    (nowDate nowIso : String) (store : Store)
    (lead : StrMap) (w : TaskWorld) (stats : Stats)
    (a c s z url u : String) (lead2 : StrMap)
    (hgo : addrStep lead = AddrStep.go a c s z lead2)
    (hurl : build_truepeoplesearch_url (some a) (some c) (some s) (some z) =
      Except.ok url)
    (hdom : pyContains (pyLowerS url) "truepeoplesearch.com" = true)
    (hraise : w.raiseUnexpected = false)
    (hfetch : (fetchLoop w.fetch).1 = true)
    (hraw : w.doc.rawEmpty = false)
    (hblock : blockKeywords.any
      (fun kw => pyContains (pyLowerS w.doc.pageText) kw) = true)
    (hu : agetV lead2 "property_url" = some u) (hune : u ≠ "") :
    extract_all w.doc = [] ∧
    enrich_lead_task lead w stats =
      ({ stats with failed := stats.failed + 1 }, lead2) ∧
    run_enrichment_pipeline [lead] (fun _ => w) pdParse pyFloat nowDate nowIso
        store =
      (⟨0, 1, 0, 1⟩, [lead2],
        upsertRow store u (buildPayload pdParse pyFloat nowDate nowIso lead2)) := by
  have hx : extract_all w.doc = [] := by
    simp only [extract_all, hraw, Bool.false_eq_true, if_false, hblock, if_true]
  have htask : ∀ st : Stats, enrich_lead_task lead w st =
      ({ st with failed := st.failed + 1 }, lead2) := by
    intro st
    simp only [enrich_lead_task, hgo, hurl, hdom, hraise, hfetch, hx,
      Bool.not_true, Bool.false_eq_true, if_false, List.isEmpty_nil,
      if_true]
  have hsave := save_lead_eq_upsert pdParse pyFloat nowDate nowIso lead2 u hu hune
  refine ⟨hx, htask stats, ?_⟩
  simp only [run_enrichment_pipeline, enrichPhase, htask, List.reverse_cons,
    List.reverse_nil, List.nil_append, List.isEmpty_cons, Bool.false_eq_true,
    if_false, uploadPhase, hsave, if_true, Nat.zero_add]

/-- Witness for the amended C1 theorem at the concrete blocked work item. -/
theorem blocked_item_failed_but_upserted_witness :
    extract_all c1Doc = [] ∧
    enrich_lead_task c1Lead c1World ⟨0, 0, 0, 0⟩ = (⟨0, 1, 0, 0⟩, c1Lead) ∧
    run_enrichment_pipeline [c1Lead] (fun _ => c1World) (fun _ => none)
        (fun _ => none) "2026-10-12" "2026-10-12T00:00:00" [] =
      (⟨0, 1, 0, 1⟩, [c1Lead],
        upsertRow [] "https://redfin.example/home/1"
          (buildPayload (fun _ => none) (fun _ => none) "2026-10-12"
            "2026-10-12T00:00:00" c1Lead)) :=
  blocked_item_failed_but_upserted (fun _ => none) (fun _ => none)
    "2026-10-12" "2026-10-12T00:00:00" [] c1Lead c1World ⟨0, 0, 0, 0⟩
    "123 Main St" "Springfield" "IL" "62701"
    "https://www.truepeoplesearch.com/resultaddress?streetaddress=123+Main+St&citystatezip=Springfield%2C+IL+62701"
    "https://redfin.example/home/1" c1Lead
    (by decide) rfl (by decide) rfl (by decide) rfl (by decide)
    (by decide) (by decide)

end LeadMap
